import Mathlib

/-!
# Verification of the exspheriment orbital-mechanics core

Shallow embedding of the core simulation code (src/time.rs, src/orbit.rs,
src/ecs/physics.rs, src/world.rs) and proofs about it.

Modelling conventions:
* Rust `i64` microsecond counters are embedded as `Int`.  The identities we
  prove about them are congruences preserved by two's-complement wraparound,
  and debug builds of the source abort on overflow, so no `% 2^64` reduction
  is needed for the statements below to reflect the source.
* Rust `f64` arithmetic is idealized as exact real arithmetic (`ℝ`), the
  standard shallow embedding for floating-point numerics.  Division by zero
  in `ℝ` yields `0` where IEEE-754 yields `±inf`/`NaN`; no theorem below
  depends on a real-division-by-zero result except through the dedicated
  `FP` model, which captures the IEEE behaviour explicitly.
* Rust `%` on `i64` is truncated remainder, embedded as `Int.tmod`
  (`Int.tmod` agrees with Rust `%` on all inputs with nonzero divisor;
  Rust panics on a zero divisor, `Int.tmod x 0 = x`, and no theorem below
  uses a zero divisor).
* Arena/ECS queries are embedded as total functions from tags/entities, and
  the recursions of `motion_system` / `update_positions`, whose Rust
  originals can diverge on malformed (cyclic) hierarchies, take an explicit
  fuel and return `Option` results (`none` = the Rust code would not have
  terminated / would have panicked).
-/

namespace Exspheriment

open scoped Classical

/-! ## src/time.rs -/

structure SimInstant where
  micros : Int
deriving DecidableEq

structure SimDuration where
  micros : Int
deriving DecidableEq

def SimInstant.epoch : SimInstant := ⟨0⟩

def SimDuration.from_micros (micros : Int) : SimDuration := ⟨micros⟩

def SimDuration.as_micros (d : SimDuration) : Int := d.micros

/-- `f64` to `i64` cast, truncation toward zero (the in-range case of the
Rust saturating cast; no theorem below exercises the saturating case). -/
noncomputable def truncF64 (x : ℝ) : Int := if 0 ≤ x then ⌊x⌋ else ⌈x⌉

noncomputable def SimDuration.from_secs_f64 (secs : ℝ) : SimDuration :=
  ⟨truncF64 (secs * 1e6)⟩

noncomputable def SimDuration.as_secs_f64 (d : SimDuration) : ℝ :=
  (d.micros : ℝ) * 1e-6

instance : HAdd SimInstant SimDuration SimInstant :=
  ⟨fun t d => ⟨t.micros + d.micros⟩⟩

instance : HSub SimInstant SimInstant SimDuration :=
  ⟨fun a b => ⟨a.micros - b.micros⟩⟩

instance : HSub SimInstant SimDuration SimInstant :=
  ⟨fun t d => ⟨t.micros - d.micros⟩⟩

instance : Add SimDuration := ⟨fun a b => ⟨a.micros + b.micros⟩⟩

instance : Sub SimDuration := ⟨fun a b => ⟨a.micros - b.micros⟩⟩

/-- Rust `%` on `i64` is truncated remainder. -/
instance : Mod SimDuration := ⟨fun a b => ⟨Int.tmod a.micros b.micros⟩⟩

@[simp] theorem SimInstant.add_micros (t : SimInstant) (d : SimDuration) :
    (t + d).micros = t.micros + d.micros := rfl

@[simp] theorem SimInstant.sub_instant_micros (a b : SimInstant) :
    (a - b).micros = a.micros - b.micros := rfl

@[simp] theorem SimInstant.sub_duration_micros (t : SimInstant) (d : SimDuration) :
    (t - d).micros = t.micros - d.micros := rfl

@[simp] theorem SimDuration.add_dur_micros (a b : SimDuration) :
    (a + b).micros = a.micros + b.micros := rfl

@[simp] theorem SimDuration.sub_micros (a b : SimDuration) :
    (a - b).micros = a.micros - b.micros := rfl

@[simp] theorem SimDuration.mod_micros (a b : SimDuration) :
    (a % b).micros = Int.tmod a.micros b.micros := rfl

/-! ## Vectors (glam `DVec2` / `DVec3`, the operations the source uses) -/

structure DVec2 where
  x : ℝ
  y : ℝ

structure DVec3 where
  x : ℝ
  y : ℝ
  z : ℝ

noncomputable instance : Add DVec2 := ⟨fun a b => ⟨a.x + b.x, a.y + b.y⟩⟩

noncomputable instance : SMul ℝ DVec2 := ⟨fun c v => ⟨c * v.x, c * v.y⟩⟩

def DVec2.unitX : DVec2 := ⟨1, 0⟩

def DVec2.unitY : DVec2 := ⟨0, 1⟩

noncomputable def DVec2.length (v : DVec2) : ℝ := Real.sqrt (v.x * v.x + v.y * v.y)

def DVec2.extend (v : DVec2) (z : ℝ) : DVec3 := ⟨v.x, v.y, z⟩

noncomputable instance : Add DVec3 := ⟨fun a b => ⟨a.x + b.x, a.y + b.y, a.z + b.z⟩⟩

noncomputable instance : Sub DVec3 := ⟨fun a b => ⟨a.x - b.x, a.y - b.y, a.z - b.z⟩⟩

noncomputable instance : Neg DVec3 := ⟨fun a => ⟨-a.x, -a.y, -a.z⟩⟩

noncomputable instance : SMul ℝ DVec3 := ⟨fun c v => ⟨c * v.x, c * v.y, c * v.z⟩⟩

/-- glam `Div<f64>` for `DVec3` (componentwise). -/
noncomputable instance : HDiv DVec3 ℝ DVec3 := ⟨fun v c => ⟨v.x / c, v.y / c, v.z / c⟩⟩

noncomputable instance : Zero DVec3 := ⟨⟨0, 0, 0⟩⟩

def DVec3.dot (a b : DVec3) : ℝ := a.x * b.x + a.y * b.y + a.z * b.z

def DVec3.cross (a b : DVec3) : DVec3 :=
  ⟨a.y * b.z - a.z * b.y, a.z * b.x - a.x * b.z, a.x * b.y - a.y * b.x⟩

noncomputable def DVec3.length (v : DVec3) : ℝ :=
  Real.sqrt (v.x * v.x + v.y * v.y + v.z * v.z)

def DVec3.unitZ : DVec3 := ⟨0, 0, 1⟩

@[simp] theorem DVec3.add_x (a b : DVec3) : (a + b).x = a.x + b.x := rfl

@[simp] theorem DVec3.add_y (a b : DVec3) : (a + b).y = a.y + b.y := rfl

@[simp] theorem DVec3.add_z (a b : DVec3) : (a + b).z = a.z + b.z := rfl

@[simp] theorem DVec3.zero_x : (0 : DVec3).x = 0 := rfl

@[simp] theorem DVec3.zero_y : (0 : DVec3).y = 0 := rfl

@[simp] theorem DVec3.zero_z : (0 : DVec3).z = 0 := rfl

/-! ## src/orbit.rs, `Orbit2D` -/

structure Orbit2D where
  e : ℝ
  p : ℝ
  t0 : SimInstant
  grav : ℝ

def Orbit2D.new (e p : ℝ) (t0 : SimInstant) (grav : ℝ) : Orbit2D :=
  ⟨e, p, t0, grav⟩

noncomputable def Orbit2D.from_apsides (ra rp : ℝ) (t0 : SimInstant) (grav : ℝ) : Orbit2D :=
  let e := (ra - rp) / (ra + rp)
  let p := rp * (1 + e)
  Orbit2D.new e p t0 grav

def Orbit2D.is_elliptic (o : Orbit2D) : Prop := o.e < 1

def Orbit2D.is_parabolic (o : Orbit2D) : Prop := o.e = 1

def Orbit2D.is_hyperbolic (o : Orbit2D) : Prop := 1 < o.e

/-- Apoapsis. -/
noncomputable def Orbit2D.ra (o : Orbit2D) : ℝ := o.p / (1 - o.e)

/-- Periapsis. -/
noncomputable def Orbit2D.rp (o : Orbit2D) : ℝ := o.p / (1 + o.e)

/-- Semi-major axis. -/
noncomputable def Orbit2D.a (o : Orbit2D) : ℝ := o.p / (1 - o.e ^ 2)

/-- Semi-minor axis. -/
noncomputable def Orbit2D.b (o : Orbit2D) : ℝ := o.p / Real.sqrt (1 - o.e ^ 2)

noncomputable def Orbit2D.radius_at (o : Orbit2D) (angle : ℝ) : ℝ :=
  o.p / (1 + o.e * Real.cos angle)

/-- Reciprocal of semi-major axis. -/
noncomputable def Orbit2D.alpha (o : Orbit2D) : ℝ := (1 - o.e ^ 2) / o.p

/-- Specific angular momentum. -/
noncomputable def Orbit2D.h (o : Orbit2D) : ℝ := Real.sqrt (o.p * o.grav)

/-- Orbital period; `some` only for elliptic orbits (`TAU = 2π`). -/
noncomputable def Orbit2D.period (o : Orbit2D) : Option SimDuration :=
  if o.e < 1 then
    some (SimDuration.from_secs_f64 ((2 * Real.pi) * Real.sqrt (o.a ^ 3 / o.grav)))
  else
    none

/-- Stumpff-like series `ss` from the source (the `partial_cmp = None` arm
is unreachable over `ℝ`, which has no NaN). -/
noncomputable def ss (z : ℝ) : ℝ :=
  let zq := Real.sqrt |z|
  if 0 < z then (zq - Real.sin zq) / zq ^ 3
  else if z < 0 then (Real.sinh zq - zq) / zq ^ 3
  else 1 / 6

/-- Stumpff-like series `sc` from the source. -/
noncomputable def sc (z : ℝ) : ℝ :=
  let zq := Real.sqrt |z|
  if 0 < z then (1 - Real.cos zq) / z
  else if z < 0 then (Real.cosh zq - 1) / (-z)
  else 1 / 2

/-- One Newton iteration sweep of the universal-Kepler solver: the body of
the `for _ in 0..100` loop, fuelled by the remaining iteration count; the
`if |delta| < 1e-10` test is the source's break-on-convergence check. -/
noncomputable def Orbit2D.chiIter (o : Orbit2D) (time : ℝ) : Nat → ℝ → ℝ
  | 0, chi => chi
  | n + 1, chi =>
    let alpha := o.alpha
    let rp := o.rp
    let delta :=
      ((1 - alpha * rp) * chi ^ 3 * ss (alpha * chi ^ 2) + rp * chi -
          Real.sqrt o.grav * time) /
        ((1 - alpha * rp) * chi ^ 2 * sc (alpha * chi ^ 2) + rp)
    let chi2 := chi - delta
    if |delta| < 1e-10 then chi2 else o.chiIter time n chi2

noncomputable def Orbit2D.chi (o : Orbit2D) (time : ℝ) : ℝ :=
  o.chiIter time 100 (Real.sqrt o.grav * |o.alpha| * time)

structure State2D where
  position : DVec2
  velocity : DVec2
  time : SimInstant

/-- Position/velocity computation of `Orbit2D::current_state` as a function
of the (already period-reduced) elapsed seconds; factored out so that the
statements below can speak about the propagation pipeline after the
`dt % period` reduction. -/
noncomputable def Orbit2D.posvel (o : Orbit2D) (dt_secs : ℝ) : DVec2 × DVec2 :=
  let chi := o.chi dt_secs
  let grav := o.grav
  let alpha := o.alpha
  let rp := o.rp
  let r0 := rp • DVec2.unitX
  let v0 := (o.h / rp) • DVec2.unitY
  let z := alpha * chi ^ 2
  let f := 1 - chi ^ 2 / rp * sc z
  let g := dt_secs - chi ^ 3 * ss z / Real.sqrt grav
  let position := f • r0 + g • v0
  let r := position.length
  let df := Real.sqrt grav / (r * rp) * (alpha * chi ^ 3 * ss z - chi)
  let dg := 1 - chi ^ 2 / r * sc z
  let velocity := df • r0 + dg • v0
  (position, velocity)

noncomputable def Orbit2D.current_state (o : Orbit2D) (time : SimInstant) : State2D :=
  let dt := time - o.t0
  let dt2 :=
    match o.period with
    | some period => dt % period
    | none => dt
  let pv := o.posvel dt2.as_secs_f64
  { position := pv.1, velocity := pv.2, time := time }

/-! ## IEEE-754 corner model

The real-valued embedding above identifies `f64` arithmetic with `ℝ` and is
used everywhere values stay finite.  The claim about parabolic orbits is
specifically about what `a()`/`b()` return when the source divides by
`1 - e²  = 0`, so for those two functions we also give an embedding into a
small model `FP` of `f64` that distinguishes finite values, infinities and
NaN (signed zero is not modelled; no statement below depends on it). -/

inductive FP where
  | finite (val : ℝ)
  | pinf
  | ninf
  | nan

def FP.isFinite : FP → Prop
  | finite _ => True
  | _ => False

noncomputable def FP.sub : FP → FP → FP
  | finite a, finite b => finite (a - b)
  | finite _, pinf => ninf
  | finite _, ninf => pinf
  | pinf, finite _ => pinf
  | ninf, finite _ => ninf
  | pinf, ninf => pinf
  | ninf, pinf => ninf
  | _, _ => nan

/-- `f64::powi(2)`. -/
noncomputable def FP.pow2 : FP → FP
  | finite a => finite (a ^ 2)
  | pinf => pinf
  | ninf => pinf
  | nan => nan

noncomputable def FP.div : FP → FP → FP
  | finite a, finite b =>
    if b = 0 then (if 0 < a then pinf else if a < 0 then ninf else nan)
    else finite (a / b)
  | finite _, pinf => finite 0
  | finite _, ninf => finite 0
  | pinf, finite b => if 0 ≤ b then pinf else ninf
  | ninf, finite b => if 0 ≤ b then ninf else pinf
  | _, _ => nan

noncomputable def FP.sqrt : FP → FP
  | finite a => if 0 ≤ a then finite (Real.sqrt a) else nan
  | pinf => pinf
  | _ => nan

/-- `Orbit2D::a` evaluated in the `FP` model: `p / (1 - e.powi(2))`. -/
noncomputable def Orbit2D.aF (o : Orbit2D) : FP :=
  FP.div (FP.finite o.p) (FP.sub (FP.finite 1) (FP.pow2 (FP.finite o.e)))

/-- `Orbit2D::b` evaluated in the `FP` model: `p / (1 - e.powi(2)).sqrt()`. -/
noncomputable def Orbit2D.bF (o : Orbit2D) : FP :=
  FP.div (FP.finite o.p) (FP.sqrt (FP.sub (FP.finite 1) (FP.pow2 (FP.finite o.e))))

/-! ## Quaternions (glam `DQuat`, the operations the source uses) -/

structure DQuat where
  w : ℝ
  x : ℝ
  y : ℝ
  z : ℝ

noncomputable def DQuat.from_rotation_x (angle : ℝ) : DQuat :=
  ⟨Real.cos (angle / 2), Real.sin (angle / 2), 0, 0⟩

noncomputable def DQuat.from_rotation_z (angle : ℝ) : DQuat :=
  ⟨Real.cos (angle / 2), 0, 0, Real.sin (angle / 2)⟩

/-- Hamilton product. -/
noncomputable def DQuat.mul (a b : DQuat) : DQuat :=
  ⟨a.w * b.w - a.x * b.x - a.y * b.y - a.z * b.z,
   a.w * b.x + a.x * b.w + a.y * b.z - a.z * b.y,
   a.w * b.y - a.x * b.z + a.y * b.w + a.z * b.x,
   a.w * b.z + a.x * b.y - a.y * b.x + a.z * b.w⟩

noncomputable instance : Mul DQuat := ⟨DQuat.mul⟩

def DQuat.conj (q : DQuat) : DQuat := ⟨q.w, -q.x, -q.y, -q.z⟩

def DQuat.ofVec (v : DVec3) : DQuat := ⟨0, v.x, v.y, v.z⟩

/-- Rotation of a vector, `q * v * q⁻¹`; for the unit quaternions produced
by `orientation()` this is glam's `DQuat * DVec3`. -/
noncomputable def DQuat.rotate (q : DQuat) (v : DVec3) : DVec3 :=
  let r := (q.mul (DQuat.ofVec v)).mul q.conj
  ⟨r.x, r.y, r.z⟩

/-! ## src/orbit.rs, `Orbit3D` and `State3D` -/

structure State3D where
  position : DVec3
  velocity : DVec3
  time : SimInstant

structure Orbit3D where
  shape : Orbit2D
  /-- Argument of periapsis relative to ascending node (radians). -/
  arg_pe : ℝ
  /-- Inclination (radians). -/
  inc : ℝ
  /-- Longitude of ascending node relative to +X (radians). -/
  lan : ℝ

def Orbit3D.new (shape : Orbit2D) (arg_pe inc lan : ℝ) : Orbit3D :=
  ⟨shape, arg_pe, inc, lan⟩

noncomputable def Orbit3D.orientation (o : Orbit3D) : DQuat :=
  (DQuat.from_rotation_z o.lan).mul
    ((DQuat.from_rotation_x o.inc).mul (DQuat.from_rotation_z o.arg_pe))

noncomputable def Orbit3D.a_vector (o : Orbit3D) : DVec3 :=
  o.shape.a • (o.orientation.rotate ⟨1, 0, 0⟩)

noncomputable def Orbit3D.b_vector (o : Orbit3D) : DVec3 :=
  o.shape.b • (o.orientation.rotate ⟨0, 1, 0⟩)

noncomputable def Orbit3D.current_state (o : Orbit3D) (time : SimInstant) : State3D :=
  let xf := o.orientation
  let state_2d := o.shape.current_state time
  { position := xf.rotate (state_2d.position.extend 0)
    velocity := xf.rotate (state_2d.velocity.extend 0)
    time := state_2d.time }

/-- The eccentricity vector exactly as `Orbit3D::from_current_state`
computes it (src/orbit.rs line 204): the second term is scaled by the
product of the magnitudes `r_mag * v_mag`. -/
noncomputable def eccVecCode (r v : DVec3) (grav : ℝ) : DVec3 :=
  ((v.length ^ 2 - grav / r.length) • r - (r.length * v.length) • v) / grav

/-- Modelled from the spec: the eccentricity-vector formula the spec states
for `from_current_state`, `e_vec = ((|v|² − grav/|r|)·r − (r·v)·v)/grav`,
whose second term is scaled by the dot product `r · v`. -/
noncomputable def eccVecSpec (r v : DVec3) (grav : ℝ) : DVec3 :=
  ((v.length ^ 2 - grav / r.length) • r - (r.dot v) • v) / grav

/-- `f64::atanh` (Mathlib 4.14 has no `Real.artanh`): the standard
`log ((1+x)/(1-x)) / 2`, which agrees with `atanh` on `(-1, 1)`; no
statement below exercises the hyperbolic branch that uses it. -/
noncomputable def artanhR (x : ℝ) : ℝ := Real.log ((1 + x) / (1 - x)) / 2

noncomputable def Orbit3D.from_current_state (state : State3D) (grav : ℝ) : Orbit3D :=
  let r := state.position
  let v := state.velocity
  let r_mag := r.length
  let h := r.cross v
  let n := DVec3.unitZ.cross h
  let e := eccVecCode r v grav
  let h_mag := h.length
  let n_mag := n.length
  let e_mag := e.length
  let inc := Real.arccos (h.z / h_mag)
  let half_lan := Real.arccos (n.x / n_mag)
  let lan := if 0 ≤ n.y then half_lan else 2 * Real.pi - half_lan
  let half_arg_pe := Real.arccos (n.dot e / (n_mag * e_mag))
  let arg_pe := if 0 ≤ e.z then half_arg_pe else 2 * Real.pi - half_arg_pe
  let p := h_mag ^ 2 / grav
  let a := p / (1 - e_mag ^ 2)
  let half_theta := Real.arccos (e.dot r / (e_mag * r_mag))
  let theta := if 0 ≤ r.dot v then half_theta else 2 * Real.pi - half_theta
  let t : ℝ :=
    if e_mag < 1 then
      let ea :=
        2 * Real.arctan (Real.sqrt ((1 - e_mag) / (1 + e_mag)) * Real.tan (theta / 2))
      let ma := ea - e_mag * Real.sin ea
      ma * Real.sqrt (a ^ 3 / grav)
    else if 1 < e_mag then
      let fa :=
        2 * artanhR (Real.sqrt ((1 - e_mag) / (1 + e_mag)) * Real.tanh (theta / 2))
      let ma := e_mag * Real.sinh fa - fa
      ma * Real.sqrt |a ^ 3 / grav|
    else
      let da := Real.tan (theta / 2)
      let ma := da + da ^ 3 / 3
      let q := p / (1 - e_mag)
      ma * Real.sqrt (q ^ 3 / grav)
  let t0 := state.time - SimDuration.from_secs_f64 t
  Orbit3D.new (Orbit2D.new e_mag p t0 grav) arg_pe inc lan

/-! ## src/ecs/physics.rs, `motion_system`

Bevy entities are embedded as naturals, the `RelativeMotion` query as a
function `Entity → Option RelativeMotion`, the `HashMap` memo table as a
function `Entity → Option DVec3`, and the `GlobalPosition` query as the
list of entity ids it yields (paired with the output map of resolved
positions). -/

abbrev Entity := Nat

inductive Motion where
  | fixed (position : DVec3)
  | orbital (orbit : Orbit3D)

noncomputable def Motion.position (m : Motion) (time : SimInstant) : DVec3 :=
  match m with
  | .fixed position => position
  | .orbital orbit => (orbit.current_state time).position

structure RelativeMotion where
  relative_to : Entity
  motion : Motion

/-- The first loop of `motion_system`: walk upward from the origin entity,
inserting each visited entity with the accumulated (negated) offset, until
an entity without `RelativeMotion` is reached.  The Rust loop diverges on a
cyclic parent chain, hence the fuel; `none` models non-termination. -/
noncomputable def walkUp (relMotion : Entity → Option RelativeMotion) (time : SimInstant) :
    Nat → Entity → DVec3 → (Entity → Option DVec3) → Option (Entity → Option DVec3)
  | 0, _, _, _ => none
  | fuel + 1, current_entity, current_position, cache =>
    let cache2 := fun e => if e = current_entity then some current_position else cache e
    match relMotion current_entity with
    | some relative_motion =>
      walkUp relMotion time fuel relative_motion.relative_to
        (current_position - relative_motion.motion.position time) cache2
    | none => some cache2

/-- The inner recursive `get_position` of `motion_system`; `none` models
the `.expect` panic on a non-root entity without `RelativeMotion` and
non-termination on a cyclic chain. -/
noncomputable def getPosition (relMotion : Entity → Option RelativeMotion) (now : SimInstant) :
    Nat → Entity → (Entity → Option DVec3) → Option (DVec3 × (Entity → Option DVec3))
  | 0, _, _ => none
  | fuel + 1, entity, cache =>
    match cache entity with
    | some position => some (position, cache)
    | none =>
      match relMotion entity with
      | none => none
      | some relative_motion =>
        match getPosition relMotion now fuel relative_motion.relative_to cache with
        | none => none
        | some (parent_position, cache2) =>
          let position := parent_position + relative_motion.motion.position now
          some (position, fun e => if e = entity then some position else cache2 e)

/-- The final loop of `motion_system` over the `GlobalPosition` query. -/
noncomputable def motionSystemGo (relMotion : Entity → Option RelativeMotion)
    (now : SimInstant) (fuel : Nat) :
    List Entity → (Entity → Option DVec3) → (Entity → Option DVec3) →
      Option (Entity → Option DVec3)
  | [], _, global_positions => some global_positions
  | entity :: rest, cache, global_positions =>
    match getPosition relMotion now fuel entity cache with
    | none => none
    | some (position, cache2) =>
      motionSystemGo relMotion now fuel rest cache2
        (fun e => if e = entity then some position else global_positions e)

/-- `motion_system`: the source first runs the sanity check
`let _ = root_query.single();`, where `root_query` matches entities with
`GlobalPosition` and without `RelativeMotion` and `single()` panics unless
exactly one entity matches; here `ents` is the `GlobalPosition` query, so
the check is that exactly one member of `ents` has no `RelativeMotion`.
Then it seeds the memo table from the origin (the single result of the
`WorldOrigin` query, the `origin` parameter) and resolves every entity of
the `GlobalPosition` query.  Returns the map of resolved `GlobalPosition`
values, or `none` on any panic. -/
noncomputable def motion_system (relMotion : Entity → Option RelativeMotion)
    (now : SimInstant) (origin : Entity) (ents : List Entity) (fuel : Nat) :
    Option (Entity → Option DVec3) :=
  if (ents.filter (fun e => (relMotion e).isNone)).length = 1 then
    match walkUp relMotion now fuel origin 0 (fun _ => none) with
    | none => none
    | some cache0 => motionSystemGo relMotion now fuel ents cache0 (fun _ => none)
  else none

/-- Sum of the relative-motion positions along the parent chain of an
entity, up to the chain's end (an entity without `RelativeMotion`). -/
noncomputable def chainSum (relMotion : Entity → Option RelativeMotion) (time : SimInstant) :
    Nat → Entity → Option DVec3
  | 0, _ => none
  | fuel + 1, e =>
    match relMotion e with
    | none => some 0
    | some rm =>
      match chainSum relMotion time fuel rm.relative_to with
      | none => none
      | some s => some (rm.motion.position time + s)

/-- The entity at the top of an entity's parent chain. -/
def chainRoot (relMotion : Entity → Option RelativeMotion) : Nat → Entity → Option Entity
  | 0, _ => none
  | fuel + 1, e =>
    match relMotion e with
    | none => some e
    | some rm => chainRoot relMotion fuel rm.relative_to

/-! ## src/world.rs -/

abbrev Tag := Nat

inductive Trajectory where
  | fixed (position : DVec3)
  | orbiting (parent : Tag) (orbit : Orbit3D)

def Trajectory.parent : Trajectory → Option Tag
  | .orbiting parent _ => some parent
  | _ => none

noncomputable def Trajectory.current_state (t : Trajectory) (time : SimInstant) : State3D :=
  match t with
  | .fixed position => { position := position, velocity := 0, time := time }
  | .orbiting _ orbit => orbit.current_state time

/-- Modelled from the spec: `State3D::zero` is called from src/world.rs but
its definition is not part of src/; the spec describes the zero state used
to offset root bodies. -/
def State3D.zero (time : SimInstant) : State3D :=
  { position := ⟨0, 0, 0⟩, velocity := ⟨0, 0, 0⟩, time := time }

/-- Modelled from the spec: `State3D::offset_by` is called from src/world.rs
but its definition is not part of src/; per the spec, adding a parent's
absolute state yields the child's absolute state, with position and
velocity both additive under the composition. -/
noncomputable def State3D.offset_by (s parent : State3D) : State3D :=
  { position := s.position + parent.position
    velocity := s.velocity + parent.velocity
    time := s.time }

structure Body where
  trajectory : Trajectory
  abs_state : State3D
  satellites : List Tag
  mass : ℝ
  radius : ℝ

/-- The `Valet<Body>` arena is embedded as a total function from tags; the
set of live tags appears as a hypothesis where a statement needs it. -/
structure World where
  bodies : Tag → Body
  roots : List Tag
  time : SimInstant

/-- One iteration of the `while let Some(tag) = pending.pop()` loop body of
`World::update_positions`. -/
noncomputable def updateStep (bodies : Tag → Body) (time : SimInstant) (tag : Tag) :
    Tag → Body :=
  let parent_state :=
    match (bodies tag).trajectory.parent with
    | some parent => (bodies parent).abs_state
    | none => State3D.zero time
  let body := bodies tag
  fun t =>
    if t = tag then
      { body with abs_state := (body.trajectory.current_state time).offset_by parent_state }
    else bodies t

/-- The `pending` stack loop of `World::update_positions`.  Rust pops from
the back of the `Vec`, so the embedded list holds the stack top first (the
list is the reversed `Vec`), and `extend`ing the `Vec` with the satellites
prepends their reversal here.  `none` models non-termination on a cyclic
hierarchy, hence the fuel. -/
noncomputable def updateLoop (time : SimInstant) :
    Nat → List Tag → (Tag → Body) → Option (Tag → Body)
  | _, [], bodies => some bodies
  | 0, _ :: _, _ => none
  | fuel + 1, tag :: rest, bodies =>
    let bodies2 := updateStep bodies time tag
    updateLoop time fuel ((bodies2 tag).satellites.reverse ++ rest) bodies2

noncomputable def World.update_positions (w : World) (fuel : Nat) : Option World :=
  match updateLoop w.time fuel w.roots.reverse w.bodies with
  | none => none
  | some bodies => some { w with bodies := bodies }

/-- `World::update`: the wall-clock-derived time step is an input here (the
source reads `Instant::now()`, an environment effect). -/
noncomputable def World.update (w : World) (dt : SimDuration) (fuel : Nat) : Option World :=
  World.update_positions { w with time := w.time + dt } fuel

/-- Absolute state obtained by composing `offset_by` along the parent chain
of a body, every trajectory evaluated at the same instant. -/
noncomputable def chainState (bodies : Tag → Body) (time : SimInstant) :
    Nat → Tag → Option State3D
  | 0, _ => none
  | fuel + 1, t =>
    match (bodies t).trajectory.parent with
    | none => some (((bodies t).trajectory.current_state time).offset_by (State3D.zero time))
    | some p =>
      match chainState bodies time fuel p with
      | none => none
      | some ps => some (((bodies t).trajectory.current_state time).offset_by ps)

/-- Reachability downward from a set of tags via `satellites` lists. -/
inductive ReachesFrom (bodies : Tag → Body) (S : Set Tag) : Tag → Prop where
  | base {t} : t ∈ S → ReachesFrom bodies S t
  | sat {t s} : ReachesFrom bodies S t → s ∈ (bodies t).satellites → ReachesFrom bodies S s

/-- The absolute state a body's parent contributes: the parent's stored
state, or the zero state for parentless bodies. -/
noncomputable def parentAbs (bodies : Tag → Body) (time : SimInstant) (t : Tag) : State3D :=
  match (bodies t).trajectory.parent with
  | some p => (bodies p).abs_state
  | none => State3D.zero time

/-- The per-body invariant of the claim: the stored absolute state is the
body's own trajectory state at `time` offset by the parent's stored
absolute state. -/
noncomputable def localOK (bodies : Tag → Body) (time : SimInstant) (t : Tag) : Prop :=
  (bodies t).abs_state = ((bodies t).trajectory.current_state time).offset_by
    (parentAbs bodies time t)

/-! ## Verification-side definitions

`cacheOK` is the memo-table invariant used to verify `motion_system`;
`rmFixture`/`bodiesFixture` are the concrete three-body test hierarchies the
witnesses instantiate. -/

/-- Memo-table invariant: every cached entry holds the entity's chain sum
expressed relative to the chain sum `s0` of the designated origin. -/
def cacheOK (rm : Entity → Option RelativeMotion) (time : SimInstant) (F : Nat)
    (s0 : DVec3) (cache : Entity → Option DVec3) : Prop :=
  ∀ e v, cache e = some v → ∃ se, chainSum rm time F e = some se ∧ v = se - s0

/-- Concrete body forest for the `motion_system` witness: root `0`,
satellite `1` of `0`, satellite `2` of `1`, fixed relative offsets. -/
noncomputable def rmFixture : Entity → Option RelativeMotion := fun e =>
  if e = 1 then some ⟨0, Motion.fixed ⟨1, 2, 3⟩⟩
  else if e = 2 then some ⟨1, Motion.fixed ⟨10, 0, 0⟩⟩
  else none

/-- Concrete arena for the `World::update` witness: root `0` (fixed), with
satellite `1` on the unit circular orbit. -/
noncomputable def bodiesFixture : Tag → Body := fun t =>
  if t = 0 then
    { trajectory := Trajectory.fixed ⟨1, 2, 3⟩
      abs_state := State3D.zero SimInstant.epoch
      satellites := [1]
      mass := 1
      radius := 1 }
  else if t = 1 then
    { trajectory := Trajectory.orbiting 0 (Orbit3D.new (Orbit2D.new 0 1 SimInstant.epoch 1) 0 0 0)
      abs_state := State3D.zero SimInstant.epoch
      satellites := []
      mass := 1
      radius := 1 }
  else
    { trajectory := Trajectory.fixed ⟨0, 0, 0⟩
      abs_state := State3D.zero SimInstant.epoch
      satellites := []
      mass := 1
      radius := 1 }

/-! ## Small component lemmas -/

theorem SimInstant.eq_of_micros {a b : SimInstant} (h : a.micros = b.micros) : a = b := by
  cases a
  cases b
  cases h
  rfl

theorem SimDuration.eq_of_dur_micros {a b : SimDuration} (h : a.micros = b.micros) : a = b := by
  cases a
  cases b
  cases h
  rfl

@[simp] theorem DVec2.add2_x (a b : DVec2) : (a + b).x = a.x + b.x := rfl

@[simp] theorem DVec2.add2_y (a b : DVec2) : (a + b).y = a.y + b.y := rfl

@[simp] theorem DVec2.smul2_x (c : ℝ) (v : DVec2) : (c • v).x = c * v.x := rfl

@[simp] theorem DVec2.smul2_y (c : ℝ) (v : DVec2) : (c • v).y = c * v.y := rfl

@[simp] theorem DVec3.sub_x (a b : DVec3) : (a - b).x = a.x - b.x := rfl

@[simp] theorem DVec3.sub_y (a b : DVec3) : (a - b).y = a.y - b.y := rfl

@[simp] theorem DVec3.sub_z (a b : DVec3) : (a - b).z = a.z - b.z := rfl

@[simp] theorem DVec3.smul_x (c : ℝ) (v : DVec3) : (c • v).x = c * v.x := rfl

@[simp] theorem DVec3.smul_y (c : ℝ) (v : DVec3) : (c • v).y = c * v.y := rfl

@[simp] theorem DVec3.smul_z (c : ℝ) (v : DVec3) : (c • v).z = c * v.z := rfl

@[simp] theorem DVec3.div_x (v : DVec3) (c : ℝ) : (v / c).x = v.x / c := rfl

@[simp] theorem DVec3.div_y (v : DVec3) (c : ℝ) : (v / c).y = v.y / c := rfl

@[simp] theorem DVec3.div_z (v : DVec3) (c : ℝ) : (v / c).z = v.z / c := rfl

theorem truncF64_of_nonneg {x : ℝ} (h : 0 ≤ x) : truncF64 x = ⌊x⌋ := if_pos h

@[simp] theorem DVec2.eq2_iff {a b : DVec2} : a = b ↔ a.x = b.x ∧ a.y = b.y := by
  constructor
  · intro h
    exact ⟨congrArg DVec2.x h, congrArg DVec2.y h⟩
  · intro ⟨hx, hy⟩
    cases a
    cases b
    cases hx
    cases hy
    rfl

@[simp] theorem DVec3.eq_iff {a b : DVec3} : a = b ↔ a.x = b.x ∧ a.y = b.y ∧ a.z = b.z := by
  constructor
  · intro h
    exact ⟨congrArg DVec3.x h, congrArg DVec3.y h, congrArg DVec3.z h⟩
  · intro ⟨hx, hy, hz⟩
    cases a
    cases b
    cases hx
    cases hy
    cases hz
    rfl

/-! ## C9 -/

/-- C9: `SimInstant`/`SimDuration` arithmetic is exact over integer
microseconds: `(t + d1) - d1 = t`, `(t + d1) - t = d1`, and
`(t + d1) + d2 = t + (d1 + d2)`, so repeated stepping accumulates no
floating-point drift. -/
theorem sim_time_arithmetic_exact (t : SimInstant) (d1 d2 : SimDuration) :
    (t + d1) - d1 = t ∧ (t + d1) - t = d1 ∧ (t + d1) + d2 = t + (d1 + d2) := by
  refine ⟨SimInstant.eq_of_micros ?_, SimDuration.eq_of_dur_micros ?_, SimInstant.eq_of_micros ?_⟩
  all_goals simp
  all_goals omega

/-! ## C10 -/

/-- C10: `Orbit2D::from_apsides(apo, peri)` with `0 < peri ≤ apo` yields
`e = (apo - peri)/(apo + peri) ∈ [0, 1)` (always elliptic) and
`p = peri * (1 + e)`, and in exact arithmetic the constructed orbit's
`rp()` is `peri` and its `ra()` is `apo`. -/
theorem from_apsides_round_trips_apsides (apo peri : ℝ) (t0 : SimInstant) (grav : ℝ)
    (hperi : 0 < peri) (hle : peri ≤ apo) :
    (Orbit2D.from_apsides apo peri t0 grav).e = (apo - peri) / (apo + peri) ∧
    0 ≤ (Orbit2D.from_apsides apo peri t0 grav).e ∧
    (Orbit2D.from_apsides apo peri t0 grav).is_elliptic ∧
    (Orbit2D.from_apsides apo peri t0 grav).p =
      peri * (1 + (Orbit2D.from_apsides apo peri t0 grav).e) ∧
    (Orbit2D.from_apsides apo peri t0 grav).rp = peri ∧
    (Orbit2D.from_apsides apo peri t0 grav).ra = apo := by
  have hsum : 0 < apo + peri := by linarith
  have he : (Orbit2D.from_apsides apo peri t0 grav).e = (apo - peri) / (apo + peri) := rfl
  have hp : (Orbit2D.from_apsides apo peri t0 grav).p =
      peri * (1 + (apo - peri) / (apo + peri)) := rfl
  have he0 : 0 ≤ (apo - peri) / (apo + peri) := by
    apply div_nonneg (by linarith) hsum.le
  have he1 : (apo - peri) / (apo + peri) < 1 := by
    rw [div_lt_one hsum]
    linarith
  refine ⟨he, he ▸ he0, ?_, by rw [hp, he], ?_, ?_⟩
  · show (Orbit2D.from_apsides apo peri t0 grav).e < 1
    rw [he]
    exact he1
  · show (Orbit2D.from_apsides apo peri t0 grav).p /
        (1 + (Orbit2D.from_apsides apo peri t0 grav).e) = peri
    rw [hp, he]
    have : (0:ℝ) < 1 + (apo - peri) / (apo + peri) := by linarith
    field_simp
    rw [mul_div_assoc, div_self (by linarith : apo + apo ≠ 0), mul_one]
  · show (Orbit2D.from_apsides apo peri t0 grav).p /
        (1 - (Orbit2D.from_apsides apo peri t0 grav).e) = apo
    rw [hp, he]
    rw [div_eq_iff (by linarith)]
    field_simp
    ring

/-- C10 witness: the concrete apsides `apo = 4`, `peri = 2`. -/
theorem from_apsides_round_trips_apsides_witness :
    (0:ℝ) < 2 ∧ (2:ℝ) ≤ 4 ∧
      (Orbit2D.from_apsides 4 2 SimInstant.epoch 1).rp = 2 ∧
      (Orbit2D.from_apsides 4 2 SimInstant.epoch 1).ra = 4 := by
  have h := from_apsides_round_trips_apsides 4 2 SimInstant.epoch 1 (by norm_num) (by norm_num)
  exact ⟨by norm_num, by norm_num, h.2.2.2.2.1, h.2.2.2.2.2⟩

/-! ## C6 -/

/-- C6: `period()` is `Some` exactly for elliptic orbits (`e < 1`), with
value `2π·√(a³/grav)` seconds converted to a `SimDuration`, and is `None`
for parabolic (`e = 1`) and hyperbolic (`e > 1`) orbits. -/
theorem period_some_iff_elliptic (o : Orbit2D) :
    ((o.period).isSome ↔ o.is_elliptic) ∧
    (o.is_elliptic →
      o.period = some (SimDuration.from_secs_f64
        ((2 * Real.pi) * Real.sqrt (o.a ^ 3 / o.grav)))) ∧
    (o.is_parabolic ∨ o.is_hyperbolic → o.period = none) := by
  unfold Orbit2D.period Orbit2D.is_elliptic Orbit2D.is_parabolic Orbit2D.is_hyperbolic
  by_cases h : o.e < 1
  · simp [h]
    exact ⟨ne_of_lt h, le_of_lt h⟩
  · simp only [h, if_false]
    simp [h]

/-- C6 witness: `e = 1/2` elliptic, `e = 1` parabolic, `e = 2` hyperbolic. -/
theorem period_some_iff_elliptic_witness :
    (Orbit2D.new (1/2) 2 SimInstant.epoch 1).period =
      some (SimDuration.from_secs_f64 ((2 * Real.pi) *
        Real.sqrt ((Orbit2D.new (1/2) 2 SimInstant.epoch 1).a ^ 3 / 1))) ∧
    (Orbit2D.new 1 2 SimInstant.epoch 1).period = none ∧
    (Orbit2D.new 2 2 SimInstant.epoch 1).period = none := by
  refine ⟨(period_some_iff_elliptic (Orbit2D.new (1/2) 2 SimInstant.epoch 1)).2.1 ?_,
      (period_some_iff_elliptic (Orbit2D.new 1 2 SimInstant.epoch 1)).2.2 (Or.inl ?_),
      (period_some_iff_elliptic (Orbit2D.new 2 2 SimInstant.epoch 1)).2.2 (Or.inr ?_)⟩
  · show (1/2:ℝ) < 1
    norm_num
  · rfl
  · show (1:ℝ) < 2
    norm_num

/-! ## C8 -/

/-- C8: for an orbit with `e` exactly `1.0`, `period()` returns `None`, and
`a()`/`b()` (whose source divides by `1 - e² = 0`) evaluate, in the IEEE
model, to the non-finite sentinel `+inf` rather than crashing: division by
zero on `f64` is total. -/
theorem parabolic_queries_return_sentinels (o : Orbit2D) (he : o.e = 1) (hp : 0 < o.p) :
    o.period = none ∧ o.aF = FP.pinf ∧ o.bF = FP.pinf ∧
      ¬ o.aF.isFinite ∧ ¬ o.bF.isFinite := by
  have hnl : ¬ o.e < 1 := by rw [he]; exact lt_irrefl 1
  have hper : o.period = none := by
    unfold Orbit2D.period
    simp [hnl]
  have hsub : FP.sub (FP.finite 1) (FP.pow2 (FP.finite o.e)) = FP.finite 0 := by
    rw [he]
    show FP.finite (1 - (1:ℝ) ^ 2) = FP.finite 0
    norm_num
  have ha : o.aF = FP.pinf := by
    unfold Orbit2D.aF
    rw [hsub]
    show (if (0:ℝ) = 0 then (if 0 < o.p then FP.pinf else if o.p < 0 then FP.ninf else FP.nan)
        else FP.finite (o.p / 0)) = FP.pinf
    rw [if_pos rfl, if_pos hp]
  have hb : o.bF = FP.pinf := by
    unfold Orbit2D.bF
    rw [hsub]
    have hsq : FP.sqrt (FP.finite 0) = FP.finite 0 := by
      show (if (0:ℝ) ≤ 0 then FP.finite (Real.sqrt 0) else FP.nan) = FP.finite 0
      rw [if_pos le_rfl, Real.sqrt_zero]
    rw [hsq]
    show (if (0:ℝ) = 0 then (if 0 < o.p then FP.pinf else if o.p < 0 then FP.ninf else FP.nan)
        else FP.finite (o.p / 0)) = FP.pinf
    rw [if_pos rfl, if_pos hp]
  refine ⟨hper, ha, hb, ?_, ?_⟩
  · rw [ha]
    exact fun h => h
  · rw [hb]
    exact fun h => h

/-- C8 witness: the parabolic orbit `e = 1`, `p = 2`. -/
theorem parabolic_queries_return_sentinels_witness :
    (Orbit2D.new 1 2 SimInstant.epoch 1).e = 1 ∧ (0:ℝ) < (Orbit2D.new 1 2 SimInstant.epoch 1).p ∧
    (Orbit2D.new 1 2 SimInstant.epoch 1).period = none ∧
    (Orbit2D.new 1 2 SimInstant.epoch 1).aF = FP.pinf ∧
    (Orbit2D.new 1 2 SimInstant.epoch 1).bF = FP.pinf := by
  have h := parabolic_queries_return_sentinels (Orbit2D.new 1 2 SimInstant.epoch 1) rfl
    (by show (0:ℝ) < 2; norm_num)
  exact ⟨rfl, by show (0:ℝ) < 2; norm_num, h.1, h.2.1, h.2.2.1⟩

/-! ## Evaluation lemmas for the unit circular orbit `e = 0, p = 1, grav = 1`

For this orbit the Newton solver converges on the first iteration with a
zero step, so the whole `current_state` pipeline evaluates in closed form:
the position is `(cos θ, sin θ)` and the velocity `(-sin θ, cos θ)` where
`θ` is the (period-reduced) elapsed time in seconds. -/

theorem circ_e (t0 : SimInstant) : (Orbit2D.new 0 1 t0 1).e = 0 := rfl

theorem circ_grav (t0 : SimInstant) : (Orbit2D.new 0 1 t0 1).grav = 1 := rfl

theorem circ_alpha (t0 : SimInstant) : (Orbit2D.new 0 1 t0 1).alpha = 1 := by
  unfold Orbit2D.alpha Orbit2D.new
  norm_num

theorem circ_rp (t0 : SimInstant) : (Orbit2D.new 0 1 t0 1).rp = 1 := by
  unfold Orbit2D.rp Orbit2D.new
  norm_num

theorem circ_h (t0 : SimInstant) : (Orbit2D.new 0 1 t0 1).h = 1 := by
  unfold Orbit2D.h Orbit2D.new
  norm_num

theorem circ_a (t0 : SimInstant) : (Orbit2D.new 0 1 t0 1).a = 1 := by
  unfold Orbit2D.a Orbit2D.new
  norm_num

/-- On the unit circular orbit the very first Newton step is zero (the
initial guess already solves the universal Kepler equation), so the loop
breaks immediately and returns the initial guess. -/
theorem chiIter_circular (t0 : SimInstant) (ds : ℝ) (n : Nat) :
    (Orbit2D.new 0 1 t0 1).chiIter ds (n + 1) ds = ds := by
  simp only [Orbit2D.chiIter, circ_alpha, circ_rp, circ_grav]
  norm_num

theorem chi_circular (t0 : SimInstant) (ds : ℝ) :
    (Orbit2D.new 0 1 t0 1).chi ds = ds := by
  unfold Orbit2D.chi
  rw [circ_grav, circ_alpha]
  rw [show Real.sqrt 1 * |(1:ℝ)| * ds = ds by rw [Real.sqrt_one, abs_one]; ring]
  exact chiIter_circular t0 ds 99

theorem posvel_circular (t0 : SimInstant) (ds : ℝ) :
    (Orbit2D.new 0 1 t0 1).posvel ds =
      (⟨Real.cos ds, Real.sin ds⟩, ⟨-Real.sin ds, Real.cos ds⟩) := by
  unfold Orbit2D.posvel
  rw [chi_circular]
  simp only [circ_alpha, circ_rp, circ_h, circ_grav]
  rcases eq_or_ne ds 0 with h0 | h0
  · subst h0
    norm_num [DVec2.unitX, DVec2.unitY, DVec2.length, ss, sc]
  · have hz : (0:ℝ) < ds ^ 2 := by positivity
    have hss : ss (1 * ds ^ 2) = (ds - Real.sin ds) / ds ^ 3 := by
      unfold ss
      rw [one_mul, if_pos hz, abs_of_pos hz, Real.sqrt_sq_eq_abs]
      rcases abs_cases ds with ⟨ha, _⟩ | ⟨ha, _⟩
      · rw [ha]
      · rw [ha, Real.sin_neg, neg_pow]
        ring_nf
    have hsc : sc (1 * ds ^ 2) = (1 - Real.cos ds) / ds ^ 2 := by
      unfold sc
      rw [one_mul, if_pos hz, abs_of_pos hz, Real.sqrt_sq_eq_abs, Real.cos_abs]
    rw [hss, hsc]
    have hp2 : Real.cos ds • ((1:ℝ) • DVec2.unitX) + Real.sin ds • (((1:ℝ) / 1) • DVec2.unitY) =
        (⟨Real.cos ds, Real.sin ds⟩ : DVec2) := by
      simp [DVec2.unitX, DVec2.unitY]
    have hf : 1 - ds ^ 2 / 1 * ((1 - Real.cos ds) / ds ^ 2) = Real.cos ds := by
      field_simp
    have hg : ds - ds ^ 3 * ((ds - Real.sin ds) / ds ^ 3) / Real.sqrt 1 = Real.sin ds := by
      rw [Real.sqrt_one]
      field_simp
    rw [hf, hg, hp2]
    have hr : (DVec2.length ⟨Real.cos ds, Real.sin ds⟩) = 1 := by
      unfold DVec2.length
      rw [show Real.cos ds * Real.cos ds + Real.sin ds * Real.sin ds = 1 by
        rw [← Real.cos_sq_add_sin_sq ds]; ring]
      exact Real.sqrt_one
    rw [hr]
    simp only [DVec2.unitX, DVec2.unitY, Prod.mk.injEq, DVec2.eq2_iff, DVec2.add2_x, DVec2.add2_y,
      DVec2.smul2_x, DVec2.smul2_y, Real.sqrt_one]
    norm_num
    constructor
    · field_simp
    · field_simp

theorem period_circular (t0 : SimInstant) :
    (Orbit2D.new 0 1 t0 1).period = some (SimDuration.from_secs_f64 (2 * Real.pi)) := by
  unfold Orbit2D.period
  rw [if_pos (show (Orbit2D.new 0 1 t0 1).e < 1 by rw [circ_e]; norm_num)]
  rw [circ_a, circ_grav]
  norm_num

theorem current_state_circular (t0 t : SimInstant) :
    (Orbit2D.new 0 1 t0 1).current_state t =
      { position :=
          ⟨Real.cos (((Int.tmod (t.micros - t0.micros) ⌊(2 * Real.pi) * 1e6⌋ : ℤ) : ℝ) * 1e-6),
           Real.sin (((Int.tmod (t.micros - t0.micros) ⌊(2 * Real.pi) * 1e6⌋ : ℤ) : ℝ) * 1e-6)⟩
        velocity :=
          ⟨-Real.sin (((Int.tmod (t.micros - t0.micros) ⌊(2 * Real.pi) * 1e6⌋ : ℤ) : ℝ) * 1e-6),
           Real.cos (((Int.tmod (t.micros - t0.micros) ⌊(2 * Real.pi) * 1e6⌋ : ℤ) : ℝ) * 1e-6)⟩
        time := t } := by
  have hds : ((t - t0) % SimDuration.from_secs_f64 (2 * Real.pi)).as_secs_f64
      = ((Int.tmod (t.micros - t0.micros) ⌊(2 * Real.pi) * 1e6⌋ : ℤ) : ℝ) * 1e-6 := by
    simp only [SimDuration.as_secs_f64, SimDuration.mod_micros, SimInstant.sub_instant_micros,
      SimDuration.from_secs_f64]
    rw [truncF64_of_nonneg (by positivity)]
  simp only [Orbit2D.current_state, period_circular]
  rw [show (Orbit2D.new 0 1 t0 1).t0 = t0 from rfl, hds, posvel_circular]

/-! ## Integer remainder helpers (Rust `%` = `Int.tmod`) -/

theorem tmod_neg_one {N : Int} (h : 1 < N) : Int.tmod (-1) N = -1 := by
  obtain ⟨n, rfl⟩ : ∃ n : Nat, N = Int.ofNat n := Int.eq_ofNat_of_zero_le (by omega)
  have hn : 1 < n := by
    have h2 : (1 : Int) < (n : Int) := h
    exact_mod_cast h2
  show -Int.ofNat (Nat.succ 0 % n) = -1
  rw [Nat.mod_eq_of_lt hn]
  rfl

theorem tmod_add_self {x P : Int} (hx : 0 ≤ x) (hP : 0 < P) :
    Int.tmod (x + P) P = Int.tmod x P := by
  rw [Int.tmod_eq_emod (by omega) (by omega), Int.tmod_eq_emod hx (by omega)]
  have h2 := Int.add_mul_emod_self_left x P 1
  rw [mul_one] at h2
  exact h2

theorem floor_tau_big : 6000000 ≤ (⌊(2 * Real.pi) * 1e6⌋ : ℤ) := by
  apply Int.le_floor.mpr
  push_cast
  nlinarith [Real.pi_gt_three]

/-! ## C5 -/

/-- C5 counterexample: the unit circular orbit (elliptic, `e = 0`) queried
one microsecond *before* the periapsis epoch.  Rust `%` keeps the sign of
the dividend, so `current_state t` reduces the elapsed time to `-1 µs`
while `current_state (t + period())` reduces it to `period - 1 µs`, and the
resulting positions `(cos θ, sin θ)` at the two reduced angles are not
equal — their equality would force `period()·1e-6 = 2πk` and hence a
rational value of `π`.  This refutes the claim for negative elapsed
times. -/
theorem current_state_not_periodic_for_negative_elapsed :
    (Orbit2D.new 0 1 SimInstant.epoch 1).period =
      some (SimDuration.from_secs_f64 (2 * Real.pi)) ∧
    ((Orbit2D.new 0 1 SimInstant.epoch 1).current_state
        ((SimInstant.epoch - SimDuration.from_micros 1) +
          SimDuration.from_secs_f64 (2 * Real.pi))).position ≠
      ((Orbit2D.new 0 1 SimInstant.epoch 1).current_state
        (SimInstant.epoch - SimDuration.from_micros 1)).position := by
  refine ⟨period_circular _, ?_⟩
  rw [current_state_circular, current_state_circular]
  have hN := floor_tau_big
  set N : ℤ := ⌊(2 * Real.pi) * 1e6⌋ with hNdef
  have hNmicros : (SimDuration.from_secs_f64 (2 * Real.pi)).micros = N := by
    show truncF64 ((2 * Real.pi) * 1e6) = N
    rw [truncF64_of_nonneg (by positivity)]
  have h1 : ((SimInstant.epoch - SimDuration.from_micros 1).micros -
      SimInstant.epoch.micros) = -1 := by
    simp [SimInstant.epoch, SimDuration.from_micros]
  have h2 : (((SimInstant.epoch - SimDuration.from_micros 1) +
      SimDuration.from_secs_f64 (2 * Real.pi)).micros - SimInstant.epoch.micros) = N - 1 := by
    simp [SimInstant.epoch, SimDuration.from_micros, hNmicros]
    omega
  rw [h1, h2]
  rw [tmod_neg_one (by omega), Int.tmod_eq_of_lt (by omega) (by omega)]
  dsimp only
  intro heq
  rw [DVec2.eq2_iff] at heq
  obtain ⟨hcos, hsin⟩ := heq
  dsimp only at hcos hsin
  set a : ℝ := ((N - 1 : ℤ) : ℝ) * 1e-6 with hadef
  set b : ℝ := ((-1 : ℤ) : ℝ) * 1e-6 with hbdef
  have hexp : Complex.exp (a * Complex.I) = Complex.exp (b * Complex.I) := by
    rw [Complex.exp_mul_I, Complex.exp_mul_I]
    have c1 : Complex.cos a = Complex.cos b := by
      rw [← Complex.ofReal_cos, ← Complex.ofReal_cos, hcos]
    have s1 : Complex.sin a = Complex.sin b := by
      rw [← Complex.ofReal_sin, ← Complex.ofReal_sin, hsin]
    rw [c1, s1]
  obtain ⟨n, hn⟩ := Complex.exp_eq_exp_iff_exists_int.mp hexp
  have hn2 : (a : ℂ) * Complex.I = ((b : ℝ) + (n : ℝ) * (2 * Real.pi)) * Complex.I := by
    rw [hn]
    push_cast
    ring
  have hC : (a : ℂ) = ((b + (n : ℝ) * (2 * Real.pi) : ℝ) : ℂ) := by
    have h3 := mul_right_cancel₀ Complex.I_ne_zero hn2
    rw [h3]
    push_cast
    ring
  have hreal : a = b + (n : ℝ) * (2 * Real.pi) := by exact_mod_cast hC
  have hdiff : (N : ℝ) * 1e-6 = (n : ℝ) * (2 * Real.pi) := by
    rw [hadef, hbdef] at hreal
    push_cast at hreal
    linarith
  have hn0 : n ≠ 0 := by
    intro h0
    rw [h0] at hdiff
    push_cast at hdiff
    have h4 : (6000000 : ℝ) ≤ (N : ℝ) := by exact_mod_cast hN
    nlinarith
  have hpi : Real.pi = (N : ℝ) / (2 * (n : ℝ) * 1000000) := by
    have hne : (n : ℝ) ≠ 0 := Int.cast_ne_zero.mpr hn0
    have h1e : (1e-6 : ℝ) = 1 / 1000000 := by norm_num
    rw [h1e] at hdiff
    field_simp at hdiff ⊢
    linarith
  have hq : ((((N : ℚ) / (2 * (n : ℚ) * 1000000)) : ℚ) : ℝ) = Real.pi := by
    push_cast
    rw [hpi]
  exact irrational_pi ⟨(N : ℚ) / (2 * (n : ℚ) * 1000000), hq⟩

/-- C5 (amended): for an elliptic orbit whose computed period `P` has a
positive microsecond count, and for every query instant `t` at or after the
periapsis epoch `t0` (nonnegative elapsed time), `current_state (t + P)`
and `current_state t` return exactly the same position and velocity: the
truncated-remainder reduction maps both calls to the same representative,
so the whole downstream computation coincides.  (For negative elapsed
times that are not multiples of `P` the two calls reduce to different
representatives — see the counterexample — and exact equality fails.) -/
theorem current_state_periodic_for_nonneg_elapsed (o : Orbit2D) (t : SimInstant)
    (P : SimDuration) (hper : o.period = some P) (hP : 0 < P.micros)
    (hdt : 0 ≤ (t - o.t0).micros) :
    (o.current_state (t + P)).position = (o.current_state t).position ∧
    (o.current_state (t + P)).velocity = (o.current_state t).velocity := by
  have key : ((t + P) - o.t0) % P = (t - o.t0) % P := by
    apply SimDuration.eq_of_dur_micros
    simp only [SimDuration.mod_micros, SimInstant.sub_instant_micros, SimInstant.add_micros]
    rw [show t.micros + P.micros - o.t0.micros = (t.micros - o.t0.micros) + P.micros by ring]
    exact tmod_add_self (by simpa using hdt) hP
  simp only [Orbit2D.current_state, hper, key]
  exact ⟨trivial, trivial⟩

/-- C5 (amended) witness: the unit circular orbit queried at its periapsis
epoch. -/
theorem current_state_periodic_for_nonneg_elapsed_witness :
    (Orbit2D.new 0 1 SimInstant.epoch 1).period =
      some (SimDuration.from_secs_f64 (2 * Real.pi)) ∧
    0 < (SimDuration.from_secs_f64 (2 * Real.pi)).micros ∧
    0 ≤ (SimInstant.epoch - (Orbit2D.new 0 1 SimInstant.epoch 1).t0).micros ∧
    ((Orbit2D.new 0 1 SimInstant.epoch 1).current_state
        (SimInstant.epoch + SimDuration.from_secs_f64 (2 * Real.pi))).position =
      ((Orbit2D.new 0 1 SimInstant.epoch 1).current_state SimInstant.epoch).position ∧
    ((Orbit2D.new 0 1 SimInstant.epoch 1).current_state
        (SimInstant.epoch + SimDuration.from_secs_f64 (2 * Real.pi))).velocity =
      ((Orbit2D.new 0 1 SimInstant.epoch 1).current_state SimInstant.epoch).velocity := by
  have hper := period_circular SimInstant.epoch
  have hP : 0 < (SimDuration.from_secs_f64 (2 * Real.pi)).micros := by
    show 0 < truncF64 ((2 * Real.pi) * 1e6)
    rw [truncF64_of_nonneg (by positivity)]
    have := floor_tau_big
    omega
  have hdt : 0 ≤ (SimInstant.epoch - (Orbit2D.new 0 1 SimInstant.epoch 1).t0).micros := by
    show (0:ℤ) ≤ SimInstant.epoch.micros - SimInstant.epoch.micros
    omega
  obtain ⟨h1, h2⟩ := current_state_periodic_for_nonneg_elapsed _ _ _ hper hP hdt
  exact ⟨hper, hP, hdt, h1, h2⟩

/-! ## C1 / C2: the eccentricity-vector computation -/

theorem length_unitXlike : DVec3.length ⟨1, 0, 0⟩ = 1 := by
  unfold DVec3.length
  norm_num

theorem length_unitYlike : DVec3.length ⟨0, 1, 0⟩ = 1 := by
  unfold DVec3.length
  norm_num

theorem eccVecCode_circ : eccVecCode ⟨1, 0, 0⟩ ⟨0, 1, 0⟩ 1 = ⟨0, -1, 0⟩ := by
  unfold eccVecCode
  rw [length_unitXlike, length_unitYlike]
  norm_num

theorem eccVecSpec_circ : eccVecSpec ⟨1, 0, 0⟩ ⟨0, 1, 0⟩ 1 = ⟨0, 0, 0⟩ := by
  unfold eccVecSpec DVec3.dot
  rw [length_unitXlike, length_unitYlike]
  norm_num

theorem orientation_zero (sh : Orbit2D) :
    (Orbit3D.new sh 0 0 0).orientation = ⟨1, 0, 0, 0⟩ := by
  unfold Orbit3D.orientation Orbit3D.new DQuat.from_rotation_x DQuat.from_rotation_z DQuat.mul
  norm_num

theorem rotate_one (v : DVec3) : DQuat.rotate ⟨1, 0, 0, 0⟩ v = v := by
  unfold DQuat.rotate DQuat.mul DQuat.conj DQuat.ofVec
  rw [DVec3.eq_iff]
  refine ⟨?_, ?_, ?_⟩ <;> dsimp only <;> ring

theorem circ3d_state :
    ((Orbit3D.new (Orbit2D.new 0 1 SimInstant.epoch 1) 0 0 0).current_state
        SimInstant.epoch).position = ⟨1, 0, 0⟩ ∧
    ((Orbit3D.new (Orbit2D.new 0 1 SimInstant.epoch 1) 0 0 0).current_state
        SimInstant.epoch).velocity = ⟨0, 1, 0⟩ ∧
    ((Orbit3D.new (Orbit2D.new 0 1 SimInstant.epoch 1) 0 0 0).current_state
        SimInstant.epoch).time = SimInstant.epoch := by
  unfold Orbit3D.current_state
  rw [show (Orbit3D.new (Orbit2D.new 0 1 SimInstant.epoch 1) 0 0 0).shape
      = Orbit2D.new 0 1 SimInstant.epoch 1 from rfl]
  rw [current_state_circular, orientation_zero]
  dsimp only
  rw [show SimInstant.epoch.micros - SimInstant.epoch.micros = 0 by omega, Int.zero_tmod]
  norm_num [DVec2.extend, rotate_one]

theorem from_current_state_circ_e :
    (Orbit3D.from_current_state ⟨⟨1, 0, 0⟩, ⟨0, 1, 0⟩, SimInstant.epoch⟩ 1).shape.e = 1 := by
  show (eccVecCode ⟨1, 0, 0⟩ ⟨0, 1, 0⟩ 1).length = 1
  rw [eccVecCode_circ]
  unfold DVec3.length
  norm_num

theorem from_current_state_circ_period :
    (Orbit3D.from_current_state ⟨⟨1, 0, 0⟩, ⟨0, 1, 0⟩, SimInstant.epoch⟩ 1).shape.period
      = none := by
  unfold Orbit2D.period
  rw [from_current_state_circ_e]
  rw [if_neg (lt_irrefl 1)]

/-- C1: round-trip orbit determination fails on the code.  The valid
non-degenerate circular orbit `e = 0, p = 1, grav = 1` (angles zero)
produces at its epoch the state `r = (1,0,0)`, `v = (0,1,0)` (nonzero
angular momentum), but `Orbit3D::from_current_state` of that state yields
an orbit of eccentricity `1` — a parabolic orbit with no period — instead
of recovering the circular orbit, because the eccentricity vector is
computed with `r_mag * v_mag` in place of `r.dot(v)` (src/orbit.rs:204).
A parabolic trajectory cannot re-propagate to the sampled circular state,
so `from_current_state` is not the inverse of `current_state` even up to
tolerance. -/
theorem from_current_state_loses_circular_orbit :
    ((Orbit3D.new (Orbit2D.new 0 1 SimInstant.epoch 1) 0 0 0).current_state
        SimInstant.epoch).position = ⟨1, 0, 0⟩ ∧
    ((Orbit3D.new (Orbit2D.new 0 1 SimInstant.epoch 1) 0 0 0).current_state
        SimInstant.epoch).velocity = ⟨0, 1, 0⟩ ∧
    ((Orbit3D.new (Orbit2D.new 0 1 SimInstant.epoch 1) 0 0 0).current_state
        SimInstant.epoch).time = SimInstant.epoch ∧
    (Orbit3D.new (Orbit2D.new 0 1 SimInstant.epoch 1) 0 0 0).shape.e = 0 ∧
    ((Orbit3D.new (Orbit2D.new 0 1 SimInstant.epoch 1) 0 0 0).shape.period).isSome = true ∧
    (Orbit3D.from_current_state ⟨⟨1, 0, 0⟩, ⟨0, 1, 0⟩, SimInstant.epoch⟩ 1).shape.e = 1 ∧
    (Orbit3D.from_current_state ⟨⟨1, 0, 0⟩, ⟨0, 1, 0⟩, SimInstant.epoch⟩ 1).shape.period
      = none := by
  obtain ⟨hp, hv, ht⟩ := circ3d_state
  refine ⟨hp, hv, ht, rfl, ?_, from_current_state_circ_e, from_current_state_circ_period⟩
  rw [show (Orbit3D.new (Orbit2D.new 0 1 SimInstant.epoch 1) 0 0 0).shape
      = Orbit2D.new 0 1 SimInstant.epoch 1 from rfl]
  rw [period_circular]
  rfl

/-- C2: `from_current_state` does *not* compute the eccentricity vector
with the dot product `r · v`: at `r = (1,0,0)`, `v = (0,1,0)`, `grav = 1`
the code's formula (second term scaled by `r_mag * v_mag`) yields
`(0,-1,0)` while the spec's formula (second term scaled by `r · v`)
yields `(0,0,0)`. -/
theorem eccVec_uses_magnitude_product_not_dot :
    eccVecCode ⟨1, 0, 0⟩ ⟨0, 1, 0⟩ 1 = ⟨0, -1, 0⟩ ∧
    eccVecSpec ⟨1, 0, 0⟩ ⟨0, 1, 0⟩ 1 = ⟨0, 0, 0⟩ ∧
    eccVecCode ⟨1, 0, 0⟩ ⟨0, 1, 0⟩ 1 ≠ eccVecSpec ⟨1, 0, 0⟩ ⟨0, 1, 0⟩ 1 := by
  refine ⟨eccVecCode_circ, eccVecSpec_circ, ?_⟩
  rw [eccVecCode_circ, eccVecSpec_circ]
  simp

/-! ## C3: motion_system -/

theorem DVec3.sub_self_eq_zero (a : DVec3) : a - a = 0 := by
  rw [DVec3.eq_iff]
  refine ⟨?_, ?_, ?_⟩ <;> simp

theorem chainSum_mono {rm : Entity → Option RelativeMotion} {time : SimInstant} :
    ∀ {n : Nat} {e : Entity} {v : DVec3}, chainSum rm time n e = some v →
      ∀ {m : Nat}, n ≤ m → chainSum rm time m e = some v := by
  intro n
  induction n with
  | zero => intro e v h; simp [chainSum] at h
  | succ k ih =>
    intro e v h m hm
    obtain ⟨m', rfl⟩ : ∃ m', m = m' + 1 := ⟨m - 1, by omega⟩
    cases hrm : rm e with
    | none =>
      simp only [chainSum, hrm] at h ⊢
      exact h
    | some rmv =>
      simp only [chainSum, hrm] at h ⊢
      cases hc : chainSum rm time k rmv.relative_to with
      | none =>
        simp only [hc] at h
        exact Option.noConfusion h
      | some s =>
        simp only [hc] at h
        simp only [ih hc (by omega : k ≤ m')]
        exact h

theorem chainRoot_mono {rm : Entity → Option RelativeMotion} :
    ∀ {n : Nat} {e r : Entity}, chainRoot rm n e = some r →
      ∀ {m : Nat}, n ≤ m → chainRoot rm m e = some r := by
  intro n
  induction n with
  | zero => intro e r h; simp [chainRoot] at h
  | succ k ih =>
    intro e r h m hm
    obtain ⟨m', rfl⟩ : ∃ m', m = m' + 1 := ⟨m - 1, by omega⟩
    cases hrm : rm e with
    | none =>
      simp only [chainRoot, hrm] at h ⊢
      exact h
    | some rmv =>
      simp only [chainRoot, hrm] at h ⊢
      exact ih h (by omega)

theorem chainSum_chainRoot {rm : Entity → Option RelativeMotion} {time : SimInstant} :
    ∀ {n : Nat} {e : Entity} {v : DVec3}, chainSum rm time n e = some v →
      ∃ r, chainRoot rm n e = some r := by
  intro n
  induction n with
  | zero => intro e v h; simp [chainSum] at h
  | succ k ih =>
    intro e v h
    cases hrm : rm e with
    | none =>
      simp only [chainRoot, hrm]
      exact ⟨e, rfl⟩
    | some rmv =>
      simp only [chainSum, hrm] at h
      simp only [chainRoot, hrm]
      cases hc : chainSum rm time k rmv.relative_to with
      | none =>
        simp only [hc] at h
        exact Option.noConfusion h
      | some s => exact ih hc

theorem walkUp_spec {rm : Entity → Option RelativeMotion} {time : SimInstant} {F : Nat}
    {s0 : DVec3} :
    ∀ {n : Nat} {cur : Entity} {scur : DVec3} {pos : DVec3} {cache : Entity → Option DVec3},
      chainSum rm time n cur = some scur → n ≤ F → pos = scur - s0 →
      cacheOK rm time F s0 cache →
      ∃ cache2, walkUp rm time n cur pos cache = some cache2 ∧
        cacheOK rm time F s0 cache2 ∧
        (∀ x, (cache x).isSome → (cache2 x).isSome) ∧
        (∀ r, chainRoot rm n cur = some r → (cache2 r).isSome) := by
  intro n
  induction n with
  | zero => intro cur scur pos cache h; simp [chainSum] at h
  | succ k ih =>
    intro cur scur pos cache hchain hF hpos hcache
    have hcache2 : cacheOK rm time F s0
        (fun e => if e = cur then some pos else cache e) := by
      intro e v hv
      dsimp only at hv
      by_cases hec : e = cur
      · subst hec
        rw [if_pos rfl] at hv
        cases hv
        exact ⟨scur, chainSum_mono hchain hF, hpos⟩
      · rw [if_neg hec] at hv
        exact hcache e v hv
    cases hrm : rm cur with
    | none =>
      simp only [walkUp, hrm]
      refine ⟨_, rfl, hcache2, ?_, ?_⟩
      · intro x hx
        by_cases hxc : x = cur
        · subst hxc; simp
        · simpa [hxc] using hx
      · intro r hr
        simp only [chainRoot, hrm] at hr
        cases hr
        simp
    | some rmv =>
      simp only [chainSum, hrm] at hchain
      cases hc : chainSum rm time k rmv.relative_to with
      | none =>
        simp only [hc] at hchain
        exact Option.noConfusion hchain
      | some sp =>
        simp only [hc, Option.some.injEq] at hchain
        have hpos2 : pos - rmv.motion.position time = sp - s0 := by
          rw [hpos, ← hchain, DVec3.eq_iff]
          refine ⟨?_, ?_, ?_⟩ <;> simp <;> ring
        obtain ⟨cache3, hrun, hok3, hmono3, hroot3⟩ := ih hc (by omega) hpos2 hcache2
        simp only [walkUp, hrm]
        refine ⟨cache3, hrun, hok3, ?_, ?_⟩
        · intro x hx
          apply hmono3
          by_cases hxc : x = cur
          · subst hxc; simp
          · simpa [hxc] using hx
        · intro r hr
          simp only [chainRoot, hrm] at hr
          exact hroot3 r hr

theorem getPosition_spec {rm : Entity → Option RelativeMotion} {time : SimInstant} {F : Nat}
    {s0 : DVec3} :
    ∀ {n : Nat} {e : Entity} {se : DVec3} {cache : Entity → Option DVec3},
      chainSum rm time n e = some se → n ≤ F →
      cacheOK rm time F s0 cache →
      (∀ r, chainRoot rm n e = some r → (cache r).isSome) →
      ∃ cache2, getPosition rm time n e cache = some (se - s0, cache2) ∧
        cacheOK rm time F s0 cache2 ∧
        (∀ x, (cache x).isSome → (cache2 x).isSome) := by
  intro n
  induction n with
  | zero => intro e se cache h; simp [chainSum] at h
  | succ k ih =>
    intro e se cache hchain hF hcache htop
    cases hce : cache e with
    | some v =>
      obtain ⟨se2, hse2, hv⟩ := hcache e v hce
      have hse : se2 = se := by
        have h1 : chainSum rm time F e = some se := chainSum_mono hchain hF
        rw [h1] at hse2
        cases hse2
        rfl
      subst hse
      subst hv
      simp only [getPosition, hce]
      exact ⟨cache, rfl, hcache, fun x hx => hx⟩
    | none =>
      cases hrm : rm e with
      | none =>
        exfalso
        have hre : chainRoot rm (k + 1) e = some e := by
          simp only [chainRoot, hrm]
        have h2 := htop e hre
        rw [hce] at h2
        simp at h2
      | some rmv =>
        simp only [chainSum, hrm] at hchain
        cases hc : chainSum rm time k rmv.relative_to with
        | none =>
          simp only [hc] at hchain
          exact Option.noConfusion hchain
        | some sp =>
          simp only [hc, Option.some.injEq] at hchain
          have htop2 : ∀ r, chainRoot rm k rmv.relative_to = some r → (cache r).isSome := by
            intro r hr
            apply htop
            simp only [chainRoot, hrm]
            exact hr
          obtain ⟨cache2, hrun, hok2, hmono2⟩ := ih hc (by omega) hcache htop2
          simp only [getPosition, hce, hrm, hrun]
          have hval : sp - s0 + rmv.motion.position time = se - s0 := by
            rw [← hchain, DVec3.eq_iff]
            refine ⟨?_, ?_, ?_⟩ <;> simp <;> ring
          refine ⟨_, by rw [hval], ?_, ?_⟩
          · intro x v hv
            dsimp only at hv
            by_cases hxe : x = e
            · subst hxe
              rw [if_pos rfl] at hv
              injection hv with hv3
              subst hv3
              refine ⟨se, chainSum_mono ?_ hF, rfl⟩
              simp only [chainSum, hrm, hc]
              rw [hchain]
            · rw [if_neg hxe] at hv
              exact hok2 x v hv
          · intro x hx
            by_cases hxe : x = e
            · subst hxe; simp
            · simp only [if_neg hxe]
              exact hmono2 x hx

theorem motionSystemGo_spec {rm : Entity → Option RelativeMotion} {time : SimInstant}
    {F : Nat} {s0 : DVec3} :
    ∀ (ents : List Entity) (cache gp : Entity → Option DVec3),
      cacheOK rm time F s0 cache →
      (∀ e, e ∈ ents → ∃ se, chainSum rm time F e = some se) →
      (∀ e, e ∈ ents → ∀ r, chainRoot rm F e = some r → (cache r).isSome) →
      ∃ gp2, motionSystemGo rm time F ents cache gp = some gp2 ∧
        (∀ e, e ∈ ents → ∃ se, chainSum rm time F e = some se ∧ gp2 e = some (se - s0)) ∧
        (∀ e, e ∉ ents → gp2 e = gp e) := by
  intro ents
  induction ents with
  | nil =>
    intro cache gp _ _ _
    exact ⟨gp, rfl, by simp, fun e _ => rfl⟩
  | cons a rest ih =>
    intro cache gp hcache hch htop
    obtain ⟨sa, hsa⟩ := hch a (List.mem_cons_self a rest)
    obtain ⟨cache2, hrun, hok2, hmono2⟩ :=
      getPosition_spec hsa le_rfl hcache (htop a (List.mem_cons_self a rest))
    simp only [motionSystemGo, hrun]
    obtain ⟨gp2, hrun2, hval2, hframe2⟩ :=
      ih cache2 (fun e => if e = a then some (sa - s0) else gp e) hok2
        (fun e he => hch e (List.mem_cons_of_mem a he))
        (fun e he r hr => hmono2 r (htop e (List.mem_cons_of_mem a he) r hr))
    refine ⟨gp2, hrun2, ?_, ?_⟩
    · intro e he
      by_cases her : e ∈ rest
      · exact hval2 e her
      · have hea : e = a := by
          rcases List.mem_cons.mp he with h1 | h1
          · exact h1
          · exact absurd h1 her
        subst hea
        refine ⟨sa, hsa, ?_⟩
        rw [hframe2 e her]
        simp
    · intro e hne
      have hna : e ≠ a := fun h => hne (h ▸ List.mem_cons_self a rest)
      have hnr : e ∉ rest := fun h => hne (List.mem_cons_of_mem a h)
      rw [hframe2 e hnr]
      simp [hna]

theorem motion_system_run {rm : Entity → Option RelativeMotion} {time : SimInstant}
    {F : Nat} {o : Entity} {so : DVec3} {ents : List Entity}
    (hone : (ents.filter (fun e => (rm e).isNone)).length = 1)
    (hso : chainSum rm time F o = some so)
    (hch : ∀ e, e ∈ ents → ∃ se, chainSum rm time F e = some se)
    (hroots : ∀ e, e ∈ ents → chainRoot rm F e = chainRoot rm F o) :
    ∃ gp, motion_system rm time o ents F = some gp ∧
      (∀ e, e ∈ ents → ∃ se, chainSum rm time F e = some se ∧ gp e = some (se - so)) := by
  have hzero : (0 : DVec3) = so - so := (DVec3.sub_self_eq_zero so).symm
  have hempty : cacheOK rm time F so (fun _ => none) := by
    intro e v hv
    exact Option.noConfusion hv
  obtain ⟨cache0, hwalk, hok0, _, hroot0⟩ := walkUp_spec hso le_rfl hzero hempty
  have htop : ∀ e, e ∈ ents → ∀ r, chainRoot rm F e = some r → (cache0 r).isSome := by
    intro e he r hr
    apply hroot0
    rw [← hroots e he]
    exact hr
  obtain ⟨gp, hgo, hvals, _⟩ := motionSystemGo_spec ents cache0 (fun _ => none) hok0 hch htop
  refine ⟨gp, ?_, hvals⟩
  unfold motion_system
  rw [if_pos hone, hwalk]
  exact hgo

/-- C3: after a run of `motion_system` over a single-root body forest
(exactly one queried entity lacks `RelativeMotion`, so the source's
`root_query.single()` sanity check passes), every queried entity's
`GlobalPosition` is the sum of the relative-motion positions (at the
current sim time) along its parent chain minus the same sum for the
designated origin entity; in particular the origin's resolved position is
zero, and switching the designated origin from `o1` to `o2` shifts every
entity's resolved position by the common constant
`chainSum o2 - chainSum o1` at the same timestamp. -/
theorem motion_system_resolves_origin_relative
    (rm : Entity → Option RelativeMotion) (time : SimInstant) (o1 o2 : Entity)
    (ents : List Entity) (F : Nat) (so1 so2 : DVec3)
    (hone : (ents.filter (fun e => (rm e).isNone)).length = 1)
    (hso1 : chainSum rm time F o1 = some so1)
    (hso2 : chainSum rm time F o2 = some so2)
    (hch : ∀ e, e ∈ ents → ∃ se, chainSum rm time F e = some se)
    (hr1 : ∀ e, e ∈ ents → chainRoot rm F e = chainRoot rm F o1)
    (hr2 : ∀ e, e ∈ ents → chainRoot rm F e = chainRoot rm F o2)
    (ho1 : o1 ∈ ents) (ho2 : o2 ∈ ents) :
    ∃ gp1 gp2,
      motion_system rm time o1 ents F = some gp1 ∧
      motion_system rm time o2 ents F = some gp2 ∧
      (∀ e, e ∈ ents → ∃ se, chainSum rm time F e = some se ∧
        gp1 e = some (se - so1) ∧ gp2 e = some (se - so2)) ∧
      gp1 o1 = some 0 ∧ gp2 o2 = some 0 ∧
      (∀ e, e ∈ ents → ∀ v1 v2, gp1 e = some v1 → gp2 e = some v2 →
        v1 - v2 = so2 - so1) := by
  obtain ⟨gp1, hrun1, hv1⟩ := motion_system_run hone hso1 hch hr1
  obtain ⟨gp2, hrun2, hv2⟩ := motion_system_run hone hso2 hch hr2
  refine ⟨gp1, gp2, hrun1, hrun2, ?_, ?_, ?_, ?_⟩
  · intro e he
    obtain ⟨se, hse, hgp1⟩ := hv1 e he
    obtain ⟨se2, hse2, hgp2⟩ := hv2 e he
    rw [hse] at hse2
    injection hse2 with h6
    rw [← h6] at hgp2
    exact ⟨se, hse, hgp1, hgp2⟩
  · obtain ⟨se, hse, hgp1⟩ := hv1 o1 ho1
    have h5 : se = so1 := by
      rw [hso1] at hse
      injection hse with h6
      exact h6.symm
    subst h5
    rw [hgp1, DVec3.sub_self_eq_zero]
  · obtain ⟨se, hse, hgp2⟩ := hv2 o2 ho2
    have h5 : se = so2 := by
      rw [hso2] at hse
      injection hse with h6
      exact h6.symm
    subst h5
    rw [hgp2, DVec3.sub_self_eq_zero]
  · intro e he v1 v2 h1 h2
    obtain ⟨se, hse, hgp1⟩ := hv1 e he
    obtain ⟨se2, hse2, hgp2⟩ := hv2 e he
    rw [hse] at hse2
    injection hse2 with h6
    rw [← h6] at hgp2
    rw [hgp1] at h1
    rw [hgp2] at h2
    injection h1 with h1
    injection h2 with h2
    rw [← h1, ← h2, DVec3.eq_iff]
    refine ⟨?_, ?_, ?_⟩ <;> simp

/-- C3 witness: the three-entity fixture chain with origins `0` and `1`. -/
theorem motion_system_resolves_origin_relative_witness :
    ∃ gp1 gp2,
      motion_system rmFixture SimInstant.epoch 0 [0, 1, 2] 4 = some gp1 ∧
      motion_system rmFixture SimInstant.epoch 1 [0, 1, 2] 4 = some gp2 ∧
      (∀ e, e ∈ [0, 1, 2] → ∃ se, chainSum rmFixture SimInstant.epoch 4 e = some se ∧
        gp1 e = some (se - 0) ∧ gp2 e = some (se - ⟨1, 2, 3⟩)) ∧
      gp1 0 = some 0 ∧ gp2 1 = some 0 ∧
      (∀ e, e ∈ [0, 1, 2] → ∀ v1 v2, gp1 e = some v1 → gp2 e = some v2 →
        v1 - v2 = (⟨1, 2, 3⟩ : DVec3) - 0) := by
  apply motion_system_resolves_origin_relative rmFixture SimInstant.epoch 0 1 [0, 1, 2] 4 0
    ⟨1, 2, 3⟩
  · simp [rmFixture]
  · simp [chainSum, rmFixture]
  · simp [chainSum, rmFixture, Motion.position]
  · intro e he
    rcases List.mem_cons.mp he with h | h
    · subst h
      exact ⟨0, by simp [chainSum, rmFixture]⟩
    rcases List.mem_cons.mp h with h2 | h2
    · subst h2
      exact ⟨⟨1, 2, 3⟩ + 0, by simp [chainSum, rmFixture, Motion.position]⟩
    rcases List.mem_cons.mp h2 with h3 | h3
    · subst h3
      exact ⟨⟨10, 0, 0⟩ + (⟨1, 2, 3⟩ + 0), by simp [chainSum, rmFixture, Motion.position]⟩
    · simp at h3
  · intro e he
    rcases List.mem_cons.mp he with h | h
    · subst h
      rfl
    rcases List.mem_cons.mp h with h2 | h2
    · subst h2
      simp [chainRoot, rmFixture]
    rcases List.mem_cons.mp h2 with h3 | h3
    · subst h3
      simp [chainRoot, rmFixture]
    · simp at h3
  · intro e he
    rcases List.mem_cons.mp he with h | h
    · subst h
      simp [chainRoot, rmFixture]
    rcases List.mem_cons.mp h with h2 | h2
    · subst h2
      rfl
    rcases List.mem_cons.mp h2 with h3 | h3
    · subst h3
      simp [chainRoot, rmFixture]
    · simp at h3
  · simp
  · simp

/-! ## C4: World update -/

theorem updateStep_trajectory (bodies : Tag → Body) (time : SimInstant) (tag t : Tag) :
    ((updateStep bodies time tag) t).trajectory = (bodies t).trajectory := by
  unfold updateStep
  by_cases h : t = tag
  · subst h
    rw [if_pos rfl]
  · rw [if_neg h]

theorem updateStep_satellites (bodies : Tag → Body) (time : SimInstant) (tag t : Tag) :
    ((updateStep bodies time tag) t).satellites = (bodies t).satellites := by
  unfold updateStep
  by_cases h : t = tag
  · subst h
    rw [if_pos rfl]
  · rw [if_neg h]

theorem updateStep_other (bodies : Tag → Body) (time : SimInstant) (tag t : Tag)
    (h : t ≠ tag) : (updateStep bodies time tag) t = bodies t := by
  unfold updateStep
  rw [if_neg h]

theorem updateStep_self (bodies : Tag → Body) (time : SimInstant) (tag : Tag) :
    (updateStep bodies time tag) tag =
      { bodies tag with
        abs_state := ((bodies tag).trajectory.current_state time).offset_by
          (match (bodies tag).trajectory.parent with
           | some p => (bodies p).abs_state
           | none => State3D.zero time) } := by
  unfold updateStep
  rw [if_pos rfl]

theorem updateLoop_static {time : SimInstant} :
    ∀ {fuel : Nat} {pending : List Tag} {bodies B : Tag → Body},
      updateLoop time fuel pending bodies = some B →
      ∀ t, (B t).trajectory = (bodies t).trajectory ∧
        (B t).satellites = (bodies t).satellites := by
  intro fuel
  induction fuel with
  | zero =>
    intro pending bodies B hrun t
    cases pending with
    | nil =>
      injection hrun with h
      subst h
      exact ⟨rfl, rfl⟩
    | cons a rest => exact Option.noConfusion hrun
  | succ k ih =>
    intro pending bodies B hrun t
    cases pending with
    | nil =>
      injection hrun with h
      subst h
      exact ⟨rfl, rfl⟩
    | cons a rest =>
      rw [updateLoop] at hrun
      obtain ⟨h1, h2⟩ := ih hrun t
      rw [h1, h2, updateStep_trajectory, updateStep_satellites]
      exact ⟨rfl, rfl⟩

theorem ReachesFrom_mono {bodies : Tag → Body} {S S2 : Set Tag} (hS : ∀ x, x ∈ S → x ∈ S2) :
    ∀ {t}, ReachesFrom bodies S t → ReachesFrom bodies S2 t := by
  intro t h
  induction h with
  | base ht => exact ReachesFrom.base (hS _ ht)
  | sat _ hs ih => exact ReachesFrom.sat ih hs

/-- The stack-loop invariant of `update_positions`: ghost done-set `D`. -/
theorem updateLoop_invariant {time : SimInstant} :
    ∀ (fuel : Nat) (pending : List Tag) (bodies : Tag → Body) (D : Set Tag) (B : Tag → Body),
      updateLoop time fuel pending bodies = some B →
      (∀ t, t ∈ D → localOK bodies time t) →
      (∀ t, t ∈ D → ∀ p, (bodies t).trajectory.parent = some p → p ∈ D) →
      (∀ t, t ∈ pending → ((bodies t).trajectory.parent = none ∨
        ∃ p, (bodies t).trajectory.parent = some p ∧ p ∈ D)) →
      (∀ t, t ∈ pending → t ∉ D) →
      pending.Nodup →
      (∀ t, t ∈ D → ∀ s, s ∈ (bodies t).satellites → s ∈ D ∨ s ∈ pending) →
      (∀ p s, s ∈ (bodies p).satellites → (bodies s).trajectory.parent = some p) →
      (∀ p, ((bodies p).satellites).Nodup) →
      ∀ t, ReachesFrom bodies {x | x ∈ D ∨ x ∈ pending} t → localOK B time t := by
  intro fuel
  induction fuel with
  | zero =>
    intro pending bodies D B hrun hD1 hD2 hpendPar hpendD hnodup hsatD hsat hsatnodup
    cases pending with
    | nil =>
      injection hrun with h
      subst h
      intro t hreach
      have htD : ∀ x, ReachesFrom bodies {x | x ∈ D ∨ x ∈ ([] : List Tag)} x → x ∈ D := by
        intro x hx
        induction hx with
        | base hb =>
          rcases hb with hb | hb
          · exact hb
          · simp at hb
        | sat _ hs ihx =>
          rcases hsatD _ ihx _ hs with h | h
          · exact h
          · simp at h
      exact hD1 t (htD t hreach)
    | cons a rest => exact Option.noConfusion hrun
  | succ k ih =>
    intro pending bodies D B hrun hD1 hD2 hpendPar hpendD hnodup hsatD hsat hsatnodup
    cases pending with
    | nil =>
      injection hrun with h
      subst h
      intro t hreach
      have htD : ∀ x, ReachesFrom bodies {x | x ∈ D ∨ x ∈ ([] : List Tag)} x → x ∈ D := by
        intro x hx
        induction hx with
        | base hb =>
          rcases hb with hb | hb
          · exact hb
          · simp at hb
        | sat _ hs ihx =>
          rcases hsatD _ ihx _ hs with h | h
          · exact h
          · simp at h
      exact hD1 t (htD t hreach)
    | cons u rest =>
      rw [updateLoop] at hrun
      -- facts about the popped tag u
      have huD : u ∉ D := hpendD u (List.mem_cons_self u rest)
      have huPar := hpendPar u (List.mem_cons_self u rest)
      have huParNe : ∀ p, (bodies u).trajectory.parent = some p → p ≠ u := by
        intro p hp hpu
        subst hpu
        rcases huPar with h | ⟨q, hq, hqD⟩
        · rw [hp] at h
          exact Option.noConfusion h
        · rw [hp] at hq
          injection hq with hq
          subst hq
          exact huD hqD
      have hb2static : ∀ t, ((updateStep bodies time u) t).trajectory = (bodies t).trajectory :=
        fun t => updateStep_trajectory bodies time u t
      have hb2sats : ∀ t, ((updateStep bodies time u) t).satellites = (bodies t).satellites :=
        fun t => updateStep_satellites bodies time u t
      -- the new done set
      set bodies2 := updateStep bodies time u with hbodies2
      set D2 : Set Tag := {x | x ∈ D ∨ x = u} with hD2def
      -- u's satellites are disjoint from D, from rest, and from {u}
      have hsatu_notD : ∀ s, s ∈ (bodies u).satellites → s ∉ D := by
        intro s hs hsD
        have := hD2 s hsD
        rcases this _ (hsat u s hs) with hpD
        exact huD hpD
      have hsatu_ne : ∀ s, s ∈ (bodies u).satellites → s ≠ u := by
        intro s hs hsu
        have hp := hsat u s hs
        rw [hsu] at hp
        exact huParNe u hp rfl
      have hsatu_notrest : ∀ s, s ∈ (bodies u).satellites → s ∉ rest := by
        intro s hs hsrest
        have hp := hsat u s hs
        rcases hpendPar s (List.mem_cons_of_mem u hsrest) with h | ⟨q, hq, hqD⟩
        · rw [hp] at h
          exact Option.noConfusion h
        · rw [hp] at hq
          injection hq with hq
          subst hq
          exact huD hqD
      have hu_notrest : u ∉ rest := (List.nodup_cons.mp hnodup).1
      have hrest_nodup : rest.Nodup := (List.nodup_cons.mp hnodup).2
      -- localOK of u under bodies2
      have hu_ok : localOK bodies2 time u := by
        unfold localOK parentAbs
        rw [hb2static u]
        rw [hbodies2, updateStep_self]
        cases hp : (bodies u).trajectory.parent with
        | none => simp [hp, updateStep_other]
        | some p =>
          have hpu : p ≠ u := huParNe p hp
          simp only [hp]
          rw [updateStep_other bodies time u p hpu]
      -- primed invariant pieces for the recursive call
      have hD1p : ∀ t, t ∈ D2 → localOK bodies2 time t := by
        intro t ht
        rcases ht with htD | htu
        · have hok := hD1 t htD
          unfold localOK parentAbs at hok ⊢
          rw [hb2static t]
          have htu2 : t ≠ u := fun h => huD (h ▸ htD)
          rw [hbodies2, updateStep_other bodies time u t htu2]
          cases hp : (bodies t).trajectory.parent with
          | none =>
            rw [hp] at hok
            simp only [hp]
            exact hok
          | some p =>
            have hpD : p ∈ D := hD2 t htD p hp
            have hpu : p ≠ u := fun h => huD (h ▸ hpD)
            rw [hp] at hok
            simp only [hp]
            rw [updateStep_other bodies time u p hpu]
            exact hok
        · subst htu
          exact hu_ok
      have hD2p : ∀ t, t ∈ D2 → ∀ p, (bodies2 t).trajectory.parent = some p → p ∈ D2 := by
        intro t ht p hp
        rw [hb2static t] at hp
        rcases ht with htD | htu
        · exact Or.inl (hD2 t htD p hp)
        · subst htu
          rcases huPar with h | ⟨q, hq, hqD⟩
          · rw [hp] at h
            exact Option.noConfusion h
          · rw [hp] at hq
            injection hq with hq
            subst hq
            exact Or.inl hqD
      have hpendParp : ∀ t, t ∈ (bodies2 u).satellites.reverse ++ rest →
          ((bodies2 t).trajectory.parent = none ∨
            ∃ p, (bodies2 t).trajectory.parent = some p ∧ p ∈ D2) := by
        intro t ht
        rw [hb2static t]
        rcases List.mem_append.mp ht with hts | htrest
        · have hts2 : t ∈ (bodies u).satellites := by
            rw [hb2sats u] at hts
            exact List.mem_reverse.mp hts
          exact Or.inr ⟨u, hsat u t hts2, Or.inr rfl⟩
        · rcases hpendPar t (List.mem_cons_of_mem u htrest) with h | ⟨q, hq, hqD⟩
          · exact Or.inl h
          · exact Or.inr ⟨q, hq, Or.inl hqD⟩
      have hpendDp : ∀ t, t ∈ (bodies2 u).satellites.reverse ++ rest → t ∉ D2 := by
        intro t ht htD2
        rcases List.mem_append.mp ht with hts | htrest
        · have hts2 : t ∈ (bodies u).satellites := by
            rw [hb2sats u] at hts
            exact List.mem_reverse.mp hts
          rcases htD2 with htD | htu
          · exact hsatu_notD t hts2 htD
          · exact hsatu_ne t hts2 htu
        · rcases htD2 with htD | htu
          · exact hpendD t (List.mem_cons_of_mem u htrest) htD
          · exact hu_notrest (htu ▸ htrest)
      have hnodupp : ((bodies2 u).satellites.reverse ++ rest).Nodup := by
        apply List.Nodup.append
        · rw [hb2sats u]
          exact List.nodup_reverse.mpr (hsatnodup u)
        · exact hrest_nodup
        · intro s hs1
          rw [hb2sats u] at hs1
          exact hsatu_notrest s (List.mem_reverse.mp hs1)
      have hsatDp : ∀ t, t ∈ D2 → ∀ s, s ∈ (bodies2 t).satellites →
          s ∈ D2 ∨ s ∈ (bodies2 u).satellites.reverse ++ rest := by
        intro t ht s hs
        rw [hb2sats t] at hs
        rcases ht with htD | htu
        · rcases hsatD t htD s hs with h | h
          · exact Or.inl (Or.inl h)
          · rcases List.mem_cons.mp h with h2 | h2
            · exact Or.inl (Or.inr h2)
            · exact Or.inr (List.mem_append.mpr (Or.inr h2))
        · rw [htu] at hs
          refine Or.inr (List.mem_append.mpr (Or.inl ?_))
          rw [hb2sats u]
          exact List.mem_reverse.mpr hs
      have hsatp : ∀ p s, s ∈ (bodies2 p).satellites → (bodies2 s).trajectory.parent = some p := by
        intro p s hs
        rw [hb2sats p] at hs
        rw [hb2static s]
        exact hsat p s hs
      have hsatnodupp : ∀ p, ((bodies2 p).satellites).Nodup := by
        intro p
        rw [hb2sats p]
        exact hsatnodup p
      intro t hreach
      have hreach2 : ReachesFrom bodies2
          {x | x ∈ D2 ∨ x ∈ (bodies2 u).satellites.reverse ++ rest} t := by
        clear hrun
        induction hreach with
        | base hb =>
          apply ReachesFrom.base
          rcases hb with hbD | hbP
          · exact Or.inl (Or.inl hbD)
          · rcases List.mem_cons.mp hbP with h2 | h2
            · exact Or.inl (Or.inr h2)
            · exact Or.inr (List.mem_append.mpr (Or.inr h2))
        | sat _ hs ihx =>
          apply ReachesFrom.sat ihx
          rw [hb2sats]
          exact hs
      exact ih _ bodies2 D2 B hrun hD1p hD2p hpendParp hpendDp hnodupp hsatDp hsatp
        hsatnodupp t hreach2

theorem ReachesFrom_congr {b1 b2 : Tag → Body}
    (h : ∀ t, (b1 t).satellites = (b2 t).satellites) {S : Set Tag} :
    ∀ {t}, ReachesFrom b1 S t → ReachesFrom b2 S t := by
  intro t ht
  induction ht with
  | base hb => exact ReachesFrom.base hb
  | sat _ hs ih =>
    apply ReachesFrom.sat ih
    rw [← h]
    exact hs

theorem localOK_chainState {B : Tag → Body} {time : SimInstant} {S : Set Tag}
    (hpar_none : ∀ t, t ∈ S → (B t).trajectory.parent = none)
    (hsat : ∀ p s, s ∈ (B p).satellites → (B s).trajectory.parent = some p)
    (hlocal : ∀ t, ReachesFrom B S t → localOK B time t) :
    ∀ t, ReachesFrom B S t → ∃ n, chainState B time n t = some ((B t).abs_state) := by
  intro t h
  induction h with
  | base ht =>
    refine ⟨1, ?_⟩
    have hp := hpar_none _ ht
    rw [show (1:Nat) = 0 + 1 from rfl, chainState]
    simp only [hp]
    have hok := hlocal _ (ReachesFrom.base ht)
    unfold localOK parentAbs at hok
    rw [hp] at hok
    rw [← hok]
  | sat hre hs ihx =>
    obtain ⟨n, hn⟩ := ihx
    refine ⟨n + 1, ?_⟩
    have hp := hsat _ _ hs
    rw [chainState]
    simp only [hp, hn]
    have hok := hlocal _ (ReachesFrom.sat hre hs)
    unfold localOK parentAbs at hok
    rw [hp] at hok
    rw [← hok]

/-- C4: after `World::update` (which advances the world time by the
wall-clock-derived step and recomputes positions), every body of the arena
satisfies the top-down invariant: its stored `abs_state` equals its
trajectory's state at the new world time offset by its parent's
already-recomputed `abs_state` (roots offset by the zero state), and
equivalently its absolute state is the `offset_by`-composition of the
relative trajectory states along its parent chain, all evaluated at the
same world instant. -/
theorem update_recomputes_states_top_down (w : World) (dt : SimDuration) (F : Nat) (tags : List Tag) (w2 : World)
    (hsat : ∀ p s, s ∈ (w.bodies p).satellites → (w.bodies s).trajectory.parent = some p)
    (hsatnodup : ∀ p, ((w.bodies p).satellites).Nodup)
    (hrootsPar : ∀ t, t ∈ w.roots → (w.bodies t).trajectory.parent = none)
    (hrootsnodup : w.roots.Nodup)
    (hreach : ∀ t, t ∈ tags → ReachesFrom w.bodies {x | x ∈ w.roots} t)
    (hrun : w.update dt F = some w2) :
    w2.time = w.time + dt ∧
    (∀ t, t ∈ tags → localOK w2.bodies w2.time t) ∧
    (∀ t, t ∈ tags →
      ∃ n, chainState w2.bodies w2.time n t = some ((w2.bodies t).abs_state)) := by
  unfold World.update World.update_positions at hrun
  cases hloop : updateLoop (w.time + dt) F w.roots.reverse w.bodies with
  | none =>
    rw [hloop] at hrun
    exact Option.noConfusion hrun
  | some B =>
    rw [hloop] at hrun
    injection hrun with hw2
    have hstatic := updateLoop_static hloop
    have hlocal := updateLoop_invariant F w.roots.reverse w.bodies ∅ B hloop
      (fun t ht => by simp at ht)
      (fun t ht => by simp at ht)
      (fun t ht => Or.inl (hrootsPar t (List.mem_reverse.mp ht)))
      (fun t _ ht => by simp at ht)
      (List.nodup_reverse.mpr hrootsnodup)
      (fun t ht => by simp at ht)
      hsat
      hsatnodup
    have hlocal2 : ∀ t, ReachesFrom w.bodies {x | x ∈ w.roots} t → localOK B (w.time + dt) t := by
      intro t ht
      apply hlocal
      apply ReachesFrom_mono _ ht
      intro x hx
      exact Or.inr (List.mem_reverse.mpr hx)
    have hsatB : ∀ p s, s ∈ (B p).satellites → (B s).trajectory.parent = some p := by
      intro p s hs
      rw [(hstatic s).1]
      apply hsat
      rw [← (hstatic p).2]
      exact hs
    have hreachB : ∀ t, t ∈ tags → ReachesFrom B {x | x ∈ w.roots} t := by
      intro t ht
      exact ReachesFrom_congr (fun x => ((hstatic x).2).symm) (hreach t ht)
    have hlocalB : ∀ t, ReachesFrom B {x | x ∈ w.roots} t → localOK B (w.time + dt) t := by
      intro t ht
      apply hlocal2
      exact ReachesFrom_congr (fun x => (hstatic x).2) ht
    have hchain := localOK_chainState
      (fun t ht => by rw [(hstatic t).1]; exact hrootsPar t ht)
      hsatB hlocalB
    subst hw2
    refine ⟨rfl, ?_, ?_⟩
    · intro t ht
      exact hlocalB t (hreachB t ht)
    · intro t ht
      exact hchain t (hreachB t ht)

/-- C4 witness: the two-body fixture world stepped by 5 microseconds. -/
theorem update_recomputes_states_top_down_witness :
    ∃ w2, (World.mk bodiesFixture [0] SimInstant.epoch).update
        (SimDuration.from_micros 5) 3 = some w2 ∧
      w2.time = SimInstant.epoch + SimDuration.from_micros 5 ∧
      (∀ t, t ∈ [0, 1] → localOK w2.bodies w2.time t) ∧
      (∀ t, t ∈ [0, 1] →
        ∃ n, chainState w2.bodies w2.time n t = some ((w2.bodies t).abs_state)) := by
  obtain ⟨w2, hrun⟩ : ∃ w2, (World.mk bodiesFixture [0] SimInstant.epoch).update
      (SimDuration.from_micros 5) 3 = some w2 := ⟨_, rfl⟩
  have hsat : ∀ p s, s ∈ (bodiesFixture p).satellites →
      (bodiesFixture s).trajectory.parent = some p := by
    intro p s hs
    unfold bodiesFixture at hs ⊢
    by_cases hp0 : p = 0
    · subst hp0
      simp at hs
      subst hs
      simp [Trajectory.parent]
    · rw [if_neg hp0] at hs
      by_cases hp1 : p = 1
      · rw [if_pos hp1] at hs
        simp at hs
      · rw [if_neg hp1] at hs
        simp at hs
  have hsatnodup : ∀ p, ((bodiesFixture p).satellites).Nodup := by
    intro p
    unfold bodiesFixture
    split_ifs <;> simp
  have hrootsPar : ∀ t, t ∈ [(0:Tag)] → (bodiesFixture t).trajectory.parent = none := by
    intro t ht
    rcases List.mem_cons.mp ht with h | h
    · subst h
      simp [bodiesFixture, Trajectory.parent]
    · simp at h
  have hreach : ∀ t, t ∈ [(0:Tag), 1] →
      ReachesFrom bodiesFixture {x | x ∈ [(0:Tag)]} t := by
    intro t ht
    rcases List.mem_cons.mp ht with h | h
    · subst h
      exact ReachesFrom.base (by simp)
    rcases List.mem_cons.mp h with h2 | h2
    · subst h2
      apply ReachesFrom.sat (ReachesFrom.base (show (0:Tag) ∈ {x | x ∈ [(0:Tag)]} by simp))
      simp [bodiesFixture]
    · simp at h2
  obtain ⟨h1, h2, h3⟩ := update_recomputes_states_top_down
    (World.mk bodiesFixture [0] SimInstant.epoch) (SimDuration.from_micros 5) 3 [0, 1] w2
    hsat hsatnodup hrootsPar (by simp) hreach hrun
  exact ⟨w2, hrun, h1, h2, h3⟩

end Exspheriment
